import Mathlib

/-!
# AirDrive-LocalStorage: device event adapter, merge repository hooks,
# merge reconciliation and boot-time remount

A shallow embedding of `common/message.go`, `service/v2/local_storage_merge.go`
and `main.go`, followed by theorems about the embedded functions.

Conventions of the embedding

* A Go `map[string]T` is an association list `GoMap T`; `m[k]` is `GoMap.get?`
  (the comma-ok form) or `GoMap.getD` (the zero-value form), `m[k] = v` is
  `GoMap.set`, and `range m` walks the list.  Go leaves the iteration order of
  a map unspecified; every result below that is a map is characterised through
  its lookups, which do not depend on that order.
* `fmt.Sprintf("%s:%s", a, b)` is `a ++ ":" ++ b`.
* A Go `*string` field is an `Option String`; dereferencing `none` is a panic.
* Functions and constants that live outside the embedded files are parameters
  (`ServiceName`, the collaborators in `Sys` and `DiskSys`).
-/

namespace LocalStorage

/-! ## Go maps -/

/-- A Go `map[string]β` as an association list. -/
abbrev GoMap (β : Type) := List (String × β)

namespace GoMap

variable {β : Type}

/-- The comma-ok lookup `v, ok := m[k]`: the first binding of `k`. -/
def get? : GoMap β → String → Option β
  | [], _ => none
  | (k', v) :: rest, k => if k' = k then some v else get? rest k

/-- The plain lookup `m[k]`, which yields the zero value `z` for a missing key. -/
def getD (m : GoMap β) (k : String) (z : β) : β :=
  (m.get? k).getD z

/-- The assignment `m[k] = v`: overwrite the binding of `k`, or add one. -/
def set : GoMap β → String → β → GoMap β
  | [], k, v => [(k, v)]
  | (k', v') :: rest, k, v =>
    if k' = k then (k, v) :: rest else (k', v') :: set rest k v

/-- The keys of a map, in the order `range` visits them. -/
def keys (m : GoMap β) : List String := m.map Prod.fst

end GoMap

/-! ## `common/message.go` -/

/-- The type `message_bus.PropertyType`. -/
structure PropertyType where
  Name : String
  deriving DecidableEq, Repr

/-- The type `message_bus.EventType`. -/
structure EventType where
  SourceID : String
  Name : String
  PropertyTypeList : List PropertyType
  deriving DecidableEq, Repr

/-- The type `message_bus.Event`. -/
structure Event where
  SourceID : String
  Name : String
  Properties : GoMap String
  deriving DecidableEq, Repr

/-- The type `netlink.UEvent`: an action, a kernel object and an environment. -/
structure UEvent where
  Action : String
  KObj : String
  Env : GoMap String
  deriving DecidableEq, Repr

/-- The table `PropertyNameLookupMaps`: device type, then property name, to the
raw environment key.  `ServiceName` is a constant declared outside this file. -/
def PropertyNameLookupMaps (ServiceName : String) : GoMap (GoMap String) :=
  [ ("disk",
      [ (ServiceName ++ ":" ++ "bus", "ID_BUS"),
        (ServiceName ++ ":" ++ "vendor", "ID_VENDOR"),
        (ServiceName ++ ":" ++ "model", "ID_MODEL"),
        (ServiceName ++ ":" ++ "path", "DEVNAME") ]),
    ("partition",
      [ (ServiceName ++ ":" ++ "bus", "ID_BUS"),
        (ServiceName ++ ":" ++ "vendor", "ID_VENDOR"),
        (ServiceName ++ ":" ++ "model", "ID_MODEL"),
        (ServiceName ++ ":" ++ "uuid", "ID_FS_UUID"),
        (ServiceName ++ ":" ++ "path", "DEVNAME") ]) ]

/-- The table `ActionPastTense`. -/
def ActionPastTense : GoMap String :=
  [ ("add", "added"), ("remove", "removed") ]

/-- Modelled from the spec: `AddUIPropertyTypes` is declared in a file of package
`common` that is not part of the embedded sources.  Section 4.1 describes it as
giving the event type "an additional, implementation-defined set of UI-facing
property types beyond the base list", so it appends the property types `ui`
(a parameter) to the list and leaves the other fields alone. -/
def AddUIPropertyTypes (ui : List PropertyType) (eventType : EventType) : EventType :=
  { eventType with PropertyTypeList := eventType.PropertyTypeList ++ ui }

/-- The body of the innermost step of `init`: register the event type of
`devtype` and `action` in the table built so far. -/
def registerEventType (ServiceName : String) (EventTypes : GoMap (GoMap EventType))
    (devtype action : String) : GoMap (GoMap EventType) :=
  let inner := EventTypes.getD devtype []
  let propertyTypeList : List PropertyType :=
    ((PropertyNameLookupMaps ServiceName).getD devtype []).map
      (fun entry => { Name := entry.1 })
  EventTypes.set devtype
    (inner.set action
      { SourceID := ServiceName
        Name := ServiceName ++ ":" ++ devtype ++ ":" ++ ActionPastTense.getD action ""
        PropertyTypeList := propertyTypeList })

/-- The two nested loops of `init`, before the `disk`/`add` entry is extended. -/
def baseEventTypes (ServiceName : String) : GoMap (GoMap EventType) :=
  (PropertyNameLookupMaps ServiceName).keys.foldl
    (fun acc devtype =>
      ActionPastTense.keys.foldl
        (fun acc action => registerEventType ServiceName acc devtype action) acc)
    []

/-- The global `EventTypes` as `init` leaves it: the generated table with
`EventTypes["disk"]["add"] = AddUIPropertyTypes(EventTypes["disk"]["add"])`
applied last. -/
def EventTypes (ServiceName : String) (ui : List PropertyType) : GoMap (GoMap EventType) :=
  let base := baseEventTypes ServiceName
  let disk := base.getD "disk" []
  base.set "disk"
    (disk.set "add" (AddUIPropertyTypes ui (disk.getD "add" ⟨"", "", []⟩)))

/-- The loop of `EventAdapter` that fills `properties`: for each pair of the
lookup map whose raw key is in `env`, bind the property name to the value. -/
def fillProperties (env : GoMap String) : GoMap String → GoMap String → GoMap String
  | [], properties => properties
  | (propertyName, envName) :: rest, properties =>
    match env.get? envName with
    | none => fillProperties env rest properties
    | some value => fillProperties env rest (properties.set propertyName value)

/-- The function `EventAdapter`; `none` is the `nil` result. -/
def EventAdapter (ServiceName : String) (ui : List PropertyType) (e : UEvent) : Option Event :=
  let devType := e.Env.getD "DEVTYPE" ""
  match ((EventTypes ServiceName ui).getD devType []).get? e.Action with
  | none => none
  | some eventType =>
    some
      { SourceID := eventType.SourceID
        Name := eventType.Name
        Properties := fillProperties e.Env ((PropertyNameLookupMaps ServiceName).getD devType []) [] }

/-! ## `service/v2/local_storage_merge.go`: data and collaborators -/

/-- The errors the service returns: its own two sentinels, the persistence
engine's "record not found", and any error of a collaborator. -/
inductive Err
  | ErrMergeMountPointAlreadyExists
  | ErrMergeMountPointDoesNotExist
  | ErrRecordNotFound
  | other (msg : String)
  deriving DecidableEq, Repr

namespace Model2

/-- The record `model2.Mount`, a persisted serial disk.  The functions below read
its `ID` and `MountPoint`. -/
structure Mount where
  ID : Nat
  UUID : String
  Path : String
  MountPoint : String
  deriving DecidableEq, Repr

/-- The record `model2.Merge`.  `SourceBasePath` is a `*string`; `SourceMounts` is
the preloaded association, a slice whose entries the persistence engine fills
with non-nil pointers. -/
structure Merge where
  ID : Nat
  FSType : String
  MountPoint : String
  SourceBasePath : Option String
  SourceMounts : List Mount
  deriving DecidableEq, Repr

end Model2

namespace Codegen

/-- The record `codegen.Mount`: a live mount, or the request handed to `Mount`. -/
structure Mount where
  MountPoint : String
  Fstype : Option String
  Source : Option String
  Options : Option String
  deriving DecidableEq, Repr

end Codegen

/-- One call that leaves the service: a query or update of the persistence engine,
or a call of the file system, the mount controller or the union mount driver. -/
inductive Call
  | DbFindMerges
  | DbWhereMountPoint (mountPoint : String)
  | DbFirst (mountPoint : String)
  | DbCreate (merge : Model2.Merge)
  | DbAssociation (id : Nat)
  | DbReplace (id : Nat) (mounts : List Model2.Mount)
  | IsNotExistMkDir (path : String)
  | Stat (path : String)
  | GetMounts
  | Mount (m : Codegen.Mount)
  | ListValues (mountPoint : String)
  | GetSource (mountPoint : String)
  | SetSource (mountPoint : String) (sources : List String)
  deriving DecidableEq, Repr

/-- The collaborators of the service over a state `ω` of the machine (mount table,
union driver, file system).  Each is a parameter: `dbErr` is the error, if any,
that the persistence engine reports for a query; `Stat`, `ListValues`,
`GetSource` and `GetMounts` read the state; `IsNotExistMkDir`, `Mount` and
`SetSource` may change it, whether or not they report an error. -/
structure Sys (ω : Type) where
  dbErr : ω → Call → Option Err
  IsNotExistMkDir : ω → String → Option Err × ω
  Stat : ω → String → Option Err
  GetMounts : ω → Except Err (List Codegen.Mount)
  Mount : ω → Codegen.Mount → Option Err × ω
  ListValues : ω → String → Option Err
  GetSource : ω → String → Except Err (List String)
  SetSource : ω → String → List String → Option Err × ω

/-- The state the service works on: the merge table of the repository, rows in
primary-key order with their source mounts preloaded, and the machine. -/
structure State (ω : Type) where
  merges : List Model2.Merge
  os : ω

/-- How a call of a service function ends: it returns a value, returns an error,
or panics. -/
inductive Outcome (α : Type)
  | ok (a : α)
  | error (e : Err)
  | panicked
  deriving DecidableEq, Repr

/-- The result of running a service function: the state it leaves, the calls it
issued in order, and how it ended. -/
structure Run (ω : Type) (α : Type) where
  st : State ω
  calls : List Call
  out : Outcome α

/-- The argument `model interface{}` of a persistence hook. -/
inductive HookModel
  | Mount (d : Model2.Mount)
  | Merge (m : Model2.Merge)
  | Other
  deriving DecidableEq, Repr

/-! ### Queries of the persistence engine -/

/-- The query `First(&merge, &model2.Merge{MountPoint: mountPoint})`: the first
row, in primary-key order, that meets the struct condition.  The engine builds
the condition from the non-zero fields of the struct only, so an empty
`mountPoint` gives no condition at all. -/
def dbFirst (table : List Model2.Merge) (mountPoint : String) : Option Model2.Merge :=
  table.find? (fun row => decide (mountPoint = "" ∨ row.MountPoint = mountPoint))

/-- The query `Where("mount_point = ?", mountPoint).Limit(1).Find(&existingMerge)`:
the rows it returns; their number is `RowsAffected`. -/
def dbWhereMountPoint (table : List Model2.Merge) (mountPoint : String) : List Model2.Merge :=
  (table.filter (fun row => decide (row.MountPoint = mountPoint))).take 1

/-- The update `Model(&merge).Association("SourceMounts").Replace(mounts)`: the row
with the primary key of `merge` gets `mounts` as its source mounts. -/
def dbReplaceSourceMounts (table : List Model2.Merge) (id : Nat)
    (mounts : List Model2.Mount) : List Model2.Merge :=
  table.map (fun row => if row.ID = id then { row with SourceMounts := mounts } else row)

/-- The insert `Create(&merge)`: the row is added last; a zero primary key is
replaced by the next free one. -/
def dbCreate (table : List Model2.Merge) (merge : Model2.Merge) : List Model2.Merge :=
  table ++ [ if merge.ID = 0 then
      { merge with ID := (table.map (fun row => row.ID)).foldl max 0 + 1 }
    else merge ]

/-! ### The deletion hook -/

/-- The inner loop of `hookAfterDeleteMountPoint`: append to `updatedMounts` each
serial disk whose `ID` differs from that of the deleted record. -/
def collectUpdatedMounts (d : Model2.Mount) :
    List Model2.Mount → List Model2.Mount → List Model2.Mount
  | [], updatedMounts => updatedMounts
  | serialDisk :: rest, updatedMounts =>
    if serialDisk.ID ≠ d.ID then collectUpdatedMounts d rest (updatedMounts ++ [serialDisk])
    else collectUpdatedMounts d rest updatedMounts

/-- The outer loop of `hookAfterDeleteMountPoint` over the loaded merges; an error
of the persistence engine is a panic. -/
def hookLoop {ω : Type} (sys : Sys ω) (d : Model2.Mount) :
    State ω → List Model2.Merge → Run ω Unit
  | st, [] => ⟨st, [], .ok ()⟩
  | st, merge :: rest =>
    let updatedMounts := collectUpdatedMounts d merge.SourceMounts []
    match sys.dbErr st.os (.DbAssociation merge.ID) with
    | some _ => ⟨st, [.DbAssociation merge.ID], .panicked⟩
    | none =>
      match sys.dbErr st.os (.DbReplace merge.ID updatedMounts) with
      | some _ =>
        ⟨st, [.DbAssociation merge.ID, .DbReplace merge.ID updatedMounts], .panicked⟩
      | none =>
        let r := hookLoop sys d
          { st with merges := dbReplaceSourceMounts st.merges merge.ID updatedMounts } rest
        ⟨r.st, .DbAssociation merge.ID :: .DbReplace merge.ID updatedMounts :: r.calls, r.out⟩

/-- The function `hookAfterDeleteMountPoint`.  `globalDB` tells whether the
statement context carries the global database handle; the hook does nothing
without it, or for a model that is not a `*model2.Mount`. -/
def hookAfterDeleteMountPoint {ω : Type} (sys : Sys ω) (st : State ω) (globalDB : Bool)
    (model : HookModel) : Run ω Unit :=
  match model with
  | .Mount d =>
    if globalDB then
      match sys.dbErr st.os .DbFindMerges with
      | some _ => ⟨st, [.DbFindMerges], .panicked⟩
      | none =>
        let r := hookLoop sys d st st.merges
        ⟨r.st, .DbFindMerges :: r.calls, r.out⟩
    else ⟨st, [], .ok ()⟩
  | _ => ⟨st, [], .ok ()⟩

/-! ### `GetMergeAll`, `CreateMerge`, `UpdateMerge` -/

/-- The method `GetMergeAll`. -/
def GetMergeAll {ω : Type} (sys : Sys ω) (st : State ω) : Except Err (List Model2.Merge) :=
  match sys.dbErr st.os .DbFindMerges with
  | some e => .error e
  | none => .ok st.merges

/-- The loop of `CreateMerge` that builds `source`: the base path, then `":"` and
the mount point of each source mount. -/
def createMergeSource (sourceBasePath : String) (sourceMounts : List Model2.Mount) : String :=
  sourceMounts.foldl (fun source mount => source ++ ":" ++ mount.MountPoint) sourceBasePath

/-- The loop of `UpdateMerge` (and of `CheckMergeMount`) that builds the list of
sources: the base path, then the mount point of each mount appended in order. -/
def appendMountPoints (sourceBasePath : String) (mounts : List Model2.Mount) : List String :=
  mounts.foldl (fun sources mount => sources ++ [mount.MountPoint]) [sourceBasePath]

/-- The method `CreateMerge`. -/
def CreateMerge {ω : Type} (sys : Sys ω) (st : State ω) (merge : Model2.Merge) : Run ω Unit :=
  let q := Call.DbWhereMountPoint merge.MountPoint
  match sys.dbErr st.os q with
  | some e => ⟨st, [q], .error e⟩
  | none =>
    if (dbWhereMountPoint st.merges merge.MountPoint).length > 0 then
      ⟨st, [q], .error .ErrMergeMountPointAlreadyExists⟩
    else
      match merge.SourceBasePath with
      | none => ⟨st, [q], .panicked⟩
      | some sourceBasePath =>
        match sys.IsNotExistMkDir st.os sourceBasePath with
        | (some e, os1) =>
          ⟨{ st with os := os1 }, [q, .IsNotExistMkDir sourceBasePath], .error e⟩
        | (none, os1) =>
          let source := createMergeSource sourceBasePath merge.SourceMounts
          let req : Codegen.Mount :=
            { MountPoint := merge.MountPoint, Fstype := some merge.FSType,
              Source := some source, Options := none }
          match sys.Mount os1 req with
          | (some e, os2) =>
            ⟨{ st with os := os2 }, [q, .IsNotExistMkDir sourceBasePath, .Mount req], .error e⟩
          | (none, os2) =>
            match sys.dbErr os2 (.DbCreate merge) with
            | some e =>
              ⟨{ st with os := os2 },
                [q, .IsNotExistMkDir sourceBasePath, .Mount req, .DbCreate merge], .error e⟩
            | none =>
              ⟨{ merges := dbCreate st.merges merge, os := os2 },
                [q, .IsNotExistMkDir sourceBasePath, .Mount req, .DbCreate merge], .ok ()⟩

/-- The tail of `UpdateMerge`, "then persist to database". -/
def persistSourceMounts {ω : Type} (sys : Sys ω) (st : State ω) (merge : Model2.Merge)
    (mounts : List Model2.Mount) : Run ω Unit :=
  match sys.dbErr st.os (.DbAssociation merge.ID) with
  | some e => ⟨st, [.DbAssociation merge.ID], .error e⟩
  | none =>
    match sys.dbErr st.os (.DbReplace merge.ID mounts) with
    | some e => ⟨st, [.DbAssociation merge.ID, .DbReplace merge.ID mounts], .error e⟩
    | none =>
      ⟨{ st with merges := dbReplaceSourceMounts st.merges merge.ID mounts },
        [.DbAssociation merge.ID, .DbReplace merge.ID mounts], .ok ()⟩

/-- The method `UpdateMerge`.  The branch for `RowsAffected == 0` cannot be taken
after `First`, which reports a missing row as an error. -/
def UpdateMerge {ω : Type} (sys : Sys ω) (st : State ω) (mountPoint : String)
    (mounts : List Model2.Mount) : Run ω Unit :=
  match sys.dbErr st.os (.DbFirst mountPoint) with
  | some e => ⟨st, [.DbFirst mountPoint], .error e⟩
  | none =>
    match dbFirst st.merges mountPoint with
    | none => ⟨st, [.DbFirst mountPoint], .error .ErrRecordNotFound⟩
    | some merge =>
      match sys.Stat st.os mountPoint with
      | some e => ⟨st, [.DbFirst mountPoint, .Stat mountPoint], .error e⟩
      | none =>
        match merge.SourceBasePath with
        | none => ⟨st, [.DbFirst mountPoint, .Stat mountPoint], .panicked⟩
        | some sourceBasePath =>
          let sources := appendMountPoints sourceBasePath mounts
          match sys.ListValues st.os mountPoint with
          | some _ =>
            let source := ":".intercalate sources
            let req : Codegen.Mount :=
              { MountPoint := merge.MountPoint, Fstype := some merge.FSType,
                Source := some source, Options := none }
            match sys.Mount st.os req with
            | (some e, os1) =>
              ⟨{ st with os := os1 },
                [.DbFirst mountPoint, .Stat mountPoint, .ListValues mountPoint, .Mount req],
                .error e⟩
            | (none, os1) =>
              let r := persistSourceMounts sys { st with os := os1 } merge mounts
              ⟨r.st,
                [.DbFirst mountPoint, .Stat mountPoint, .ListValues mountPoint, .Mount req]
                  ++ r.calls, r.out⟩
          | none =>
            match sys.SetSource st.os mountPoint sources with
            | (some e, os1) =>
              ⟨{ st with os := os1 },
                [.DbFirst mountPoint, .Stat mountPoint, .ListValues mountPoint,
                  .SetSource mountPoint sources], .error e⟩
            | (none, os1) =>
              let r := persistSourceMounts sys { st with os := os1 } merge mounts
              ⟨r.st,
                [.DbFirst mountPoint, .Stat mountPoint, .ListValues mountPoint,
                  .SetSource mountPoint sources] ++ r.calls, r.out⟩

/-! ### `CheckMergeMount` -/

/-- Modelled from the spec: `utils.CompareStringSlices` belongs to the common
utilities library, outside the embedded sources.  Section 4.4, step 3, has the
two ordered lists compared "for exact equality (order-sensitive)". -/
def CompareStringSlices (a b : List String) : Bool :=
  decide (a = b)

/-- The scan of `CheckMergeMount` over the live mounts that sets `mountNeeded`: it
stops with `false` at the first mount at the merge's mount point whose type is
the merge's, and passes over a mount there of another type.  `Fstype` is a
`*string`, and the result is `none` when the scan dereferences a nil one. -/
def mountNeeded (merge : Model2.Merge) : List Codegen.Mount → Option Bool
  | [] => some true
  | codegenMount :: rest =>
    if codegenMount.MountPoint = merge.MountPoint then
      match codegenMount.Fstype with
      | none => none
      | some fstype => if fstype = merge.FSType then some false else mountNeeded merge rest
    else mountNeeded merge rest

/-- A call of `UpdateMerge` from the loop of `CheckMergeMount`: an error it returns
is logged and the loop goes on; a panic is not caught. -/
def updateAndLog {ω : Type} (sys : Sys ω) (st : State ω) (merge : Model2.Merge) : Run ω Unit :=
  let r := UpdateMerge sys st merge.MountPoint merge.SourceMounts
  ⟨r.st, r.calls,
    match r.out with
    | .panicked => .panicked
    | _ => .ok ()⟩

/-- The body of the loop of `CheckMergeMount` for one merge, given the live mounts
that were loaded before the loop. -/
def checkMerge {ω : Type} (sys : Sys ω) (codegenMounts : List Codegen.Mount) (st : State ω)
    (merge : Model2.Merge) : Run ω Unit :=
  match mountNeeded merge codegenMounts with
  | none => ⟨st, [], .panicked⟩
  | some true => updateAndLog sys st merge
  | some false =>
    match sys.GetSource st.os merge.MountPoint with
    | .error _ => ⟨st, [.GetSource merge.MountPoint], .ok ()⟩
    | .ok currentSourceList =>
      match merge.SourceBasePath with
      | none => ⟨st, [.GetSource merge.MountPoint], .panicked⟩
      | some sourceBasePath =>
        let expectSourceList := appendMountPoints sourceBasePath merge.SourceMounts
        if !CompareStringSlices currentSourceList expectSourceList then
          let r := updateAndLog sys st merge
          ⟨r.st, .GetSource merge.MountPoint :: r.calls, r.out⟩
        else ⟨st, [.GetSource merge.MountPoint], .ok ()⟩

/-- The loop `for i := range mergeList` of `CheckMergeMount`. -/
def checkMergeLoop {ω : Type} (sys : Sys ω) (codegenMounts : List Codegen.Mount) :
    State ω → List Model2.Merge → Run ω Unit
  | st, [] => ⟨st, [], .ok ()⟩
  | st, merge :: rest =>
    let r := checkMerge sys codegenMounts st merge
    match r.out with
    | .ok _ =>
      let r2 := checkMergeLoop sys codegenMounts r.st rest
      ⟨r2.st, r.calls ++ r2.calls, r2.out⟩
    | .error e => ⟨r.st, r.calls, .error e⟩
    | .panicked => ⟨r.st, r.calls, .panicked⟩

/-- The method `CheckMergeMount`.  When the merge list or the mount list cannot be
loaded, the error is logged and the method returns. -/
def CheckMergeMount {ω : Type} (sys : Sys ω) (st : State ω) : Run ω Unit :=
  match GetMergeAll sys st with
  | .error _ => ⟨st, [.DbFindMerges], .ok ()⟩
  | .ok mergeList =>
    match sys.GetMounts st.os with
    | .error _ => ⟨st, [.DbFindMerges, .GetMounts], .ok ()⟩
    | .ok codegenMounts =>
      let r := checkMergeLoop sys codegenMounts st mergeList
      ⟨r.st, .DbFindMerges :: .GetMounts :: r.calls, r.out⟩

/-- Whether a call is a `Mount` or a `SetSource`, the two calls that change a
mount. -/
def Call.isRepair : Call → Bool
  | .Mount _ => true
  | .SetSource _ _ => true
  | _ => false

/-- The mount point a call examines when it opens the reconciliation of a merge:
the `First` query that opens `UpdateMerge`, or `GetSource`. -/
def Call.examined : Call → Option String
  | .DbFirst mountPoint => some mountPoint
  | .GetSource mountPoint => some mountPoint
  | _ => none

/-- The sources of a merge without the serial disks that carry the `ID` of `d`, in
their order: what the cascade on the deletion of `d` is to leave. -/
def sourcesWithout (d : Model2.Mount) (sources : List Model2.Mount) : List Model2.Mount :=
  sources.filter (fun s => decide (s.ID ≠ d.ID))

/-- A merge row with `sourcesWithout d` as its sources. -/
def mergeWithout (d : Model2.Mount) (merge : Model2.Merge) : Model2.Merge :=
  { merge with SourceMounts := sourcesWithout d merge.SourceMounts }

/-! ### A machine for the examples -/

/-- A small in-memory machine: the paths that exist, the mount table, the source
list the union driver holds for each live union mount, and whether the operating
system refuses to mount (the permission-denied failure of section 4.2). -/
structure Machine where
  paths : List String
  mounts : List Codegen.Mount
  union : GoMap (List String)
  refuseMount : Bool
  deriving DecidableEq, Repr

/-- Split a source string at each `':'`, the way the union driver reads the source
of a mount. -/
def splitSources : List Char → List Char → List String
  | [], cur => [String.mk cur]
  | c :: rest, cur =>
    if c = ':' then String.mk cur :: splitSources rest [] else splitSources rest (cur ++ [c])

/-- Modelled from the spec: the collaborators of sections 4.2 and 4.3 over a
`Machine`, for the examples.  `Stat` succeeds on the paths that exist; `GetMounts`
lists the mount table; `Mount` is refused when the machine says so and otherwise
adds the mount and makes it a live union mount over the sources it was given;
`ListValues` and `GetSource` succeed exactly on a live union mount; `SetSource`
replaces the source list of one; the persistence engine reports no error. -/
def machineSys : Sys Machine where
  dbErr := fun _ _ => none
  IsNotExistMkDir := fun m path =>
    (none, if path ∈ m.paths then m else { m with paths := m.paths ++ [path] })
  Stat := fun m path =>
    if path ∈ m.paths then none else some (.other "no such file or directory")
  GetMounts := fun m => .ok m.mounts
  Mount := fun m req =>
    if m.refuseMount then (some (.other "operation not permitted"), m)
    else
      (none, { m with
        mounts := m.mounts ++ [req]
        union := m.union.set req.MountPoint (splitSources (req.Source.getD "").toList []) })
  ListValues := fun m mountPoint =>
    match m.union.get? mountPoint with
    | some _ => none
    | none => some (.other "not a mergerfs mount")
  GetSource := fun m mountPoint =>
    match m.union.get? mountPoint with
    | some sources => .ok sources
    | none => .error (.other "not a mergerfs mount")
  SetSource := fun m mountPoint sources =>
    match m.union.get? mountPoint with
    | some _ => (none, { m with union := m.union.set mountPoint sources })
    | none => (some (.other "not a mergerfs mount"), m)

/-- The volume mounted at `/mnt/v1`. -/
def volume1 : Model2.Mount := ⟨1, "1234-ABCD", "/dev/sda1", "/mnt/v1"⟩

/-- The volume mounted at `/mnt/v2`. -/
def volume2 : Model2.Mount := ⟨2, "5678-EF01", "/dev/sdb1", "/mnt/v2"⟩

/-- The merge of section 8: base path `/data/merge1`, sources `/mnt/v1`, `/mnt/v2`. -/
def merge1 : Model2.Merge :=
  ⟨1, "fuse.mergerfs", "/mnt/merge1", some "/data/merge1", [volume1, volume2]⟩

/-- A second merge, over `/mnt/v2` alone. -/
def merge2 : Model2.Merge :=
  ⟨2, "fuse.mergerfs", "/mnt/merge2", some "/data/merge2", [volume2]⟩

/-- A machine on which `/mnt/merge1` exists and nothing is mounted. -/
def bareMachine (refuseMount : Bool) : Machine :=
  ⟨["/mnt/merge1", "/mnt/merge2"], [], [], refuseMount⟩

/-- The live mount of `merge1`. -/
def liveMount1 : Codegen.Mount :=
  ⟨"/mnt/merge1", some "fuse.mergerfs", some "/data/merge1:/mnt/v1:/mnt/v2", none⟩

/-- A machine on which `merge1` is live, the union driver holding `sources`. -/
def liveMachine (sources : List String) : Machine :=
  ⟨["/mnt/merge1", "/mnt/merge2"], [liveMount1], [("/mnt/merge1", sources)], false⟩

/-- The list the reconciliation expects for a merge with base path `base`: the
base path, then the mount point of each source in stored order. -/
def expectedSources (base : String) (merge : Model2.Merge) : List String :=
  base :: merge.SourceMounts.map (fun mount => mount.MountPoint)

/-- The request `UpdateMerge` hands to `Mount` for a merge with base path `base`. -/
def mountRequest (base : String) (merge : Model2.Merge) : Codegen.Mount :=
  { MountPoint := merge.MountPoint, Fstype := some merge.FSType,
    Source := some (":".intercalate (expectedSources base merge)), Options := none }

/-- A machine whose mount table lists `/mnt/merge1` with the declared type while
the union driver knows no live union mount there. -/
def staleMachine : Machine :=
  ⟨["/mnt/merge1", "/mnt/merge2"], [liveMount1], [], false⟩

/-- Whether a merge needs no repair: a live mount of its declared type is at its
mount point and `GetSource` reports exactly its expected list. -/
def settled {ω : Type} (sys : Sys ω) (codegenMounts : List Codegen.Mount) (os : ω)
    (merge : Model2.Merge) : Bool :=
  match mountNeeded merge codegenMounts, merge.SourceBasePath,
    sys.GetSource os merge.MountPoint with
  | some false, some base, .ok live => decide (live = expectedSources base merge)
  | _, _, _ => false

/-- The merge `merge1` declared with the type `mergerfs`, while the mount table
lists its live mount as `fuse.mergerfs`. -/
def merge1ShortType : Model2.Merge :=
  ⟨1, "mergerfs", "/mnt/merge1", some "/data/merge1", [volume1, volume2]⟩

/-- The text `":" + p1 + ":" + p2 + ...` for mount points `p1, p2, ...`, in their
order. -/
def colonSuffix : List String → String
  | [] => ""
  | p :: rest => ":" ++ p ++ colonSuffix rest

/-- The source string as section 3 describes it: the source base path followed by
`":"` and the mount point of each source volume, in the order stored. -/
def sourceStringSpec (sourceBasePath : String) (mountPoints : List String) : String :=
  sourceBasePath ++ colonSuffix mountPoints

/-- A machine on which `merge1` is live and the union driver reports its sources in
another order, with `paths` the paths that `os.Stat` finds. -/
def driftedMachine (paths : List String) : Machine :=
  ⟨paths, [liveMount1], [("/mnt/merge1", ["/data/merge1", "/mnt/v2", "/mnt/v1"])], false⟩

/-- The merge `merge1` stored with a nil `SourceBasePath`. -/
def merge1NoBase : Model2.Merge :=
  ⟨1, "fuse.mergerfs", "/mnt/merge1", none, [volume1, volume2]⟩

/-! ## `main.go`: `checkSerialDiskMount` -/

/-- The record `model.SerialDisk`: a persisted volume, keyed by its `UUID`. -/
structure SerialDisk where
  UUID : String
  Path : String
  MountPoint : String
  deriving DecidableEq, Repr

/-- A child of an `LSBLKModel`, a partition: the fields the remount reads. -/
structure LSBLKChild where
  Path : String
  UUID : String
  deriving DecidableEq, Repr

/-- The record `model.LSBLKModel`, a block device with its partitions.  A nil
`Children` is the empty list: the loop over it runs no iteration either way. -/
structure LSBLKModel where
  Path : String
  UUID : String
  Children : List LSBLKChild
  deriving DecidableEq, Repr

/-- One call that leaves `checkSerialDiskMount`. -/
inductive DiskCall
  | ExecEnabledSMART (path : String)
  | MountDisk (path : String) (volume : String)
  | UpdateMountPoint (ms : SerialDisk)
  | RemoveLSBLKCache
  | OnlyExec (cmd : String)
  deriving DecidableEq, Repr

/-- The collaborators of `checkSerialDiskMount` over a state `σ` of the machine:
the disk service, `file.CheckNotExist` (true when the path does not exist), the
shell, and the configured `ShellPath`. -/
structure DiskSys (σ : Type) where
  GetSerialAll : σ → List SerialDisk
  LSBLK : σ → Bool → List LSBLKModel
  ExecEnabledSMART : σ → String → σ
  CheckNotExist : σ → String → Bool
  MountDisk : σ → String → String → σ
  UpdateMountPoint : σ → SerialDisk → σ
  RemoveLSBLKCache : σ → σ
  OnlyExec : σ → String → σ
  ShellPath : String

/-- The loop `for _, v := range dbList { mountPoint[v.UUID] = v.MountPoint }`. -/
def recordedMountPoints (dbList : List SerialDisk) : GoMap String :=
  dbList.foldl (fun mountPoint v => mountPoint.set v.UUID v.MountPoint) []

/-- The loop `for i := 0; file.CheckNotExist(volume); i++ { volume = m +
strconv.Itoa(i+1) }`, from the value of `i` and `volume` it is entered with; the
first argument bounds the number of times the condition is tested, and the
result is `none` when that bound is used up. -/
def suffixLoop (checkNotExist : String → Bool) (m : String) : Nat → Nat → String → Option String
  | 0, _, _ => none
  | fuel + 1, i, volume =>
    if checkNotExist volume then
      suffixLoop checkNotExist m fuel (i + 1) (m ++ toString (i + 1))
    else some volume

/-- The "mount point check": the `volume` the partition is mounted at, for the
recorded mount point `m`. -/
def chooseVolume (checkNotExist : String → Bool) (fuel : Nat) (m : String) : Option String :=
  if !checkNotExist m then suffixLoop checkNotExist m fuel 0 m else some m

/-- The loop over the children `h` of a block device `v`. -/
def mountChildren {σ : Type} (sys : DiskSys σ) (fuel : Nat) (mountPoint : GoMap String)
    (v : LSBLKModel) : σ → List LSBLKChild → Option (σ × List DiskCall)
  | s, [] => some (s, [])
  | s, h :: rest =>
    match mountPoint.get? h.UUID with
    | none => mountChildren sys fuel mountPoint v s rest
    | some m =>
      match chooseVolume (sys.CheckNotExist s) fuel m with
      | none => none
      | some volume =>
        let s1 := sys.MountDisk s h.Path volume
        if volume ≠ m then
          let ms : SerialDisk := { UUID := v.UUID, Path := "", MountPoint := volume }
          match mountChildren sys fuel mountPoint v (sys.UpdateMountPoint s1 ms) rest with
          | none => none
          | some (s2, calls) =>
            some (s2, .MountDisk h.Path volume :: .UpdateMountPoint ms :: calls)
        else
          match mountChildren sys fuel mountPoint v s1 rest with
          | none => none
          | some (s2, calls) => some (s2, .MountDisk h.Path volume :: calls)

/-- The loop over the block devices `v`. -/
def remountLoop {σ : Type} (sys : DiskSys σ) (fuel : Nat) (mountPoint : GoMap String) :
    σ → List LSBLKModel → Option (σ × List DiskCall)
  | s, [] => some (s, [])
  | s, v :: rest =>
    match mountChildren sys fuel mountPoint v (sys.ExecEnabledSMART s v.Path) v.Children with
    | none => none
    | some (s1, calls) =>
      match remountLoop sys fuel mountPoint s1 rest with
      | none => none
      | some (s2, calls2) => some (s2, .ExecEnabledSMART v.Path :: calls ++ calls2)

/-- The function `checkSerialDiskMount`: the state it leaves and the calls it
issued, or `none` when a suffix loop used up `fuel`. -/
def checkSerialDiskMount {σ : Type} (sys : DiskSys σ) (fuel : Nat) (s : σ) :
    Option (σ × List DiskCall) :=
  let dbList := sys.GetSerialAll s
  let list := sys.LSBLK s true
  let mountPoint := recordedMountPoints dbList
  match remountLoop sys fuel mountPoint s list with
  | none => none
  | some (s1, calls) =>
    let cmd := "source " ++ sys.ShellPath ++ "/local-storage-helper.sh ;AutoRemoveUnuseDir"
    some (sys.OnlyExec (sys.RemoveLSBLKCache s1) cmd, calls ++ [.RemoveLSBLKCache, .OnlyExec cmd])

/-- A machine for the example of the remount: its state is the list of the paths
that exist; `MountDisk` creates the path it mounts at; the persisted volumes and
the live block devices are fixed. -/
def diskSys (dbList : List SerialDisk) (list : List LSBLKModel) : DiskSys (List String) where
  GetSerialAll := fun _ => dbList
  LSBLK := fun _ _ => list
  ExecEnabledSMART := fun s _ => s
  CheckNotExist := fun s path => decide (path ∉ s)
  MountDisk := fun s _ volume => if volume ∈ s then s else s ++ [volume]
  UpdateMountPoint := fun s _ => s
  RemoveLSBLKCache := fun s => s
  OnlyExec := fun s _ => s
  ShellPath := "/usr/share/casaos/shell"

/-- The example of section 8: one persisted volume recorded at `/mnt/disk1`, and
its partition `/dev/sda1` live on `/dev/sda`. -/
def bootSys : DiskSys (List String) :=
  diskSys [⟨"1234-ABCD", "/dev/sda1", "/mnt/disk1"⟩]
    [⟨"/dev/sda", "", [⟨"/dev/sda1", "1234-ABCD"⟩]⟩]

/-! ## Theorems -/

theorem EventTypes_eq (sn : String) (ui : List PropertyType) :
    EventTypes sn ui =
      [ ("disk",
          [ ("add", ⟨sn, sn ++ ":" ++ "disk" ++ ":" ++ "added",
              [⟨sn ++ ":" ++ "bus"⟩, ⟨sn ++ ":" ++ "vendor"⟩, ⟨sn ++ ":" ++ "model"⟩,
               ⟨sn ++ ":" ++ "path"⟩] ++ ui⟩),
            ("remove", ⟨sn, sn ++ ":" ++ "disk" ++ ":" ++ "removed",
              [⟨sn ++ ":" ++ "bus"⟩, ⟨sn ++ ":" ++ "vendor"⟩, ⟨sn ++ ":" ++ "model"⟩,
               ⟨sn ++ ":" ++ "path"⟩]⟩) ]),
        ("partition",
          [ ("add", ⟨sn, sn ++ ":" ++ "partition" ++ ":" ++ "added",
              [⟨sn ++ ":" ++ "bus"⟩, ⟨sn ++ ":" ++ "vendor"⟩, ⟨sn ++ ":" ++ "model"⟩,
               ⟨sn ++ ":" ++ "uuid"⟩, ⟨sn ++ ":" ++ "path"⟩]⟩),
            ("remove", ⟨sn, sn ++ ":" ++ "partition" ++ ":" ++ "removed",
              [⟨sn ++ ":" ++ "bus"⟩, ⟨sn ++ ":" ++ "vendor"⟩, ⟨sn ++ ":" ++ "model"⟩,
               ⟨sn ++ ":" ++ "uuid"⟩, ⟨sn ++ ":" ++ "path"⟩]⟩) ]) ] := by
  rfl

/-! ### Go maps -/

theorem GoMap.get?_set {β : Type} (m : GoMap β) (k k' : String) (v : β) :
    (m.set k v).get? k' = if k = k' then some v else m.get? k' := by
  induction m with
  | nil => simp [GoMap.set, GoMap.get?]
  | cons hd tl ih =>
    obtain ⟨k0, v0⟩ := hd
    by_cases h0 : k0 = k
    · subst h0
      by_cases h1 : k0 = k' <;> simp [GoMap.set, GoMap.get?, h1]
    · by_cases h1 : k0 = k'
      · subst h1
        have h2 : ¬ k = k0 := fun h => h0 h.symm
        simp [GoMap.set, GoMap.get?, h0, h2]
      · simp [GoMap.set, GoMap.get?, h0, h1, ih]

theorem GoMap.get?_eq_none_of_not_mem_keys {β : Type} (m : GoMap β) (k : String)
    (h : k ∉ m.keys) : m.get? k = none := by
  induction m with
  | nil => rfl
  | cons hd tl ih =>
    obtain ⟨k0, v0⟩ := hd
    simp only [GoMap.keys, List.map_cons, List.mem_cons, not_or] at h
    have h0 : ¬ k0 = k := fun e => h.1 e.symm
    simp only [GoMap.get?, h0, if_false]
    exact ih h.2

theorem string_append_right_inj (s a b : String) : s ++ a = s ++ b ↔ a = b := by
  constructor
  · intro h
    have h1 : (s ++ a).data = (s ++ b).data := by rw [h]
    rw [String.data_append, String.data_append] at h1
    exact String.ext (List.append_cancel_left h1)
  · rintro rfl
    rfl

/-! ### The event adapter -/

/-- What `fillProperties` leaves under a property name, when the property names
of the lookup map are pairwise distinct. -/
theorem fillProperties_get? (env : GoMap String) (table : GoMap String)
    (hnd : table.keys.Nodup) (acc : GoMap String) (p : String) :
    (fillProperties env table acc).get? p =
      match table.get? p with
      | none => acc.get? p
      | some k =>
        match env.get? k with
        | none => acc.get? p
        | some v => some v := by
  induction table generalizing acc with
  | nil => rfl
  | cons hd tl ih =>
    obtain ⟨p0, k0⟩ := hd
    simp only [GoMap.keys, List.map_cons, List.nodup_cons] at hnd
    have hnd2 : GoMap.keys tl = List.map Prod.fst tl := rfl
    by_cases hp : p0 = p
    · subst hp
      have hnone : GoMap.get? tl p0 = none :=
        GoMap.get?_eq_none_of_not_mem_keys tl p0 hnd.1
      cases hv : GoMap.get? env k0 with
      | none => simp [fillProperties, GoMap.get?, hv, ih hnd.2, hnone]
      | some v => simp [fillProperties, GoMap.get?, hv, ih hnd.2, hnone, GoMap.get?_set]
    · cases hv : GoMap.get? env k0 with
      | none => simp [fillProperties, GoMap.get?, hv, ih hnd.2, hp]
      | some v => simp [fillProperties, GoMap.get?, hv, ih hnd.2, hp, GoMap.get?_set]

theorem PropertyNameLookupMaps_disk_nodup (sn : String) :
    (GoMap.keys ((PropertyNameLookupMaps sn).getD "disk" [])).Nodup := by
  simp [PropertyNameLookupMaps, GoMap.getD, GoMap.get?, GoMap.keys, string_append_right_inj]

theorem PropertyNameLookupMaps_partition_nodup (sn : String) :
    (GoMap.keys ((PropertyNameLookupMaps sn).getD "partition" [])).Nodup := by
  simp [PropertyNameLookupMaps, GoMap.getD, GoMap.get?, GoMap.keys, string_append_right_inj]

theorem baseEventTypes_eq (sn : String) :
    baseEventTypes sn =
      [ ("disk",
          [ ("add", ⟨sn, sn ++ ":" ++ "disk" ++ ":" ++ "added",
              [⟨sn ++ ":" ++ "bus"⟩, ⟨sn ++ ":" ++ "vendor"⟩, ⟨sn ++ ":" ++ "model"⟩,
               ⟨sn ++ ":" ++ "path"⟩]⟩),
            ("remove", ⟨sn, sn ++ ":" ++ "disk" ++ ":" ++ "removed",
              [⟨sn ++ ":" ++ "bus"⟩, ⟨sn ++ ":" ++ "vendor"⟩, ⟨sn ++ ":" ++ "model"⟩,
               ⟨sn ++ ":" ++ "path"⟩]⟩) ]),
        ("partition",
          [ ("add", ⟨sn, sn ++ ":" ++ "partition" ++ ":" ++ "added",
              [⟨sn ++ ":" ++ "bus"⟩, ⟨sn ++ ":" ++ "vendor"⟩, ⟨sn ++ ":" ++ "model"⟩,
               ⟨sn ++ ":" ++ "uuid"⟩, ⟨sn ++ ":" ++ "path"⟩]⟩),
            ("remove", ⟨sn, sn ++ ":" ++ "partition" ++ ":" ++ "removed",
              [⟨sn ++ ":" ++ "bus"⟩, ⟨sn ++ ":" ++ "vendor"⟩, ⟨sn ++ ":" ++ "model"⟩,
               ⟨sn ++ ":" ++ "uuid"⟩, ⟨sn ++ ":" ++ "path"⟩]⟩) ]) ] := by
  rfl

theorem GoMap.getD_of_get? {β : Type} (m : GoMap β) (k : String) (z v : β)
    (h : m.get? k = some v) : m.getD k z = v := by
  simp [GoMap.getD, h]

/-- The event `EventAdapter` builds once the event type is found in the table. -/
theorem EventAdapter_of_registered (sn : String) (ui : List PropertyType) (e : UEvent)
    (d a : String) (et : EventType) (hD : e.Env.getD "DEVTYPE" "" = d) (hact : e.Action = a)
    (hlook : ((EventTypes sn ui).getD d []).get? a = some et) :
    EventAdapter sn ui e =
      some ⟨et.SourceID, et.Name,
        fillProperties e.Env ((PropertyNameLookupMaps sn).getD d []) []⟩ := by
  simp only [EventAdapter, hD, hact, hlook]

/-- C1: for a supported device type `d` and action `a`, the event type that the
loops of `init` generate, the one registered in `EventTypes[d][a]` after
`AddUIPropertyTypes` has been applied to the `disk`/`add` entry, and the event
`EventAdapter` returns for a notification with `DEVTYPE = d` and action `a` all
carry the name `ServiceName:d:ActionPastTense[a]` (`add` gives `added`, `remove`
gives `removed`) and the source id `ServiceName`. -/
theorem eventAdapter_name_of_supported (sn : String) (ui : List PropertyType) (d a : String)
    (e : UEvent) (hd : d = "disk" ∨ d = "partition") (ha : a = "add" ∨ a = "remove")
    (hdev : e.Env.get? "DEVTYPE" = some d) (hact : e.Action = a) :
    ∃ past generated registered ev,
      ActionPastTense.get? a = some past ∧
      (a = "add" → past = "added") ∧ (a = "remove" → past = "removed") ∧
      ((baseEventTypes sn).getD d []).get? a = some generated ∧
      generated.Name = sn ++ ":" ++ d ++ ":" ++ past ∧ generated.SourceID = sn ∧
      ((EventTypes sn ui).getD d []).get? a = some registered ∧
      registered.Name = sn ++ ":" ++ d ++ ":" ++ past ∧ registered.SourceID = sn ∧
      EventAdapter sn ui e = some ev ∧
      ev.Name = sn ++ ":" ++ d ++ ":" ++ past ∧ ev.SourceID = sn := by
  have hD : e.Env.getD "DEVTYPE" "" = d := GoMap.getD_of_get? _ _ _ _ hdev
  rcases hd with rfl | rfl <;> rcases ha with rfl | rfl
  · exact ⟨"added", _, _, _, rfl, fun _ => rfl, by decide, rfl, rfl, rfl, rfl, rfl, rfl,
      EventAdapter_of_registered sn ui e _ _ _ hD hact rfl, rfl, rfl⟩
  · exact ⟨"removed", _, _, _, rfl, by decide, fun _ => rfl, rfl, rfl, rfl, rfl, rfl, rfl,
      EventAdapter_of_registered sn ui e _ _ _ hD hact rfl, rfl, rfl⟩
  · exact ⟨"added", _, _, _, rfl, fun _ => rfl, by decide, rfl, rfl, rfl, rfl, rfl, rfl,
      EventAdapter_of_registered sn ui e _ _ _ hD hact rfl, rfl, rfl⟩
  · exact ⟨"removed", _, _, _, rfl, by decide, fun _ => rfl, rfl, rfl, rfl, rfl, rfl, rfl,
      EventAdapter_of_registered sn ui e _ _ _ hD hact rfl, rfl, rfl⟩

theorem eventAdapter_name_of_supported_witness :
    ("disk" = "disk" ∨ "disk" = "partition") ∧ ("add" = "add" ∨ "add" = "remove") ∧
    GoMap.get? [("DEVTYPE", "disk"), ("ID_BUS", "usb")] "DEVTYPE" = some "disk" ∧
    ∃ ev, EventAdapter "local-storage" [⟨"casaos-ui:type"⟩]
        ⟨"add", "", [("DEVTYPE", "disk"), ("ID_BUS", "usb")]⟩ = some ev ∧
      ev.Name = "local-storage:disk:added" ∧ ev.SourceID = "local-storage" := by
  refine ⟨Or.inl rfl, Or.inl rfl, rfl, ?_⟩
  obtain ⟨past, _, _, ev, _, hpast, _, _, _, _, _, _, _, hev, hname, hsrc⟩ :=
    eventAdapter_name_of_supported "local-storage" [⟨"casaos-ui:type"⟩] "disk" "add"
      ⟨"add", "", [("DEVTYPE", "disk"), ("ID_BUS", "usb")]⟩ (Or.inl rfl) (Or.inl rfl) rfl rfl
  refine ⟨ev, hev, ?_, hsrc⟩
  rw [hname, hpast rfl]
  decide

/-- C2: `EventAdapter` returns no event exactly when the notification's `DEVTYPE`
is neither `disk` nor `partition` (an absent `DEVTYPE` included) or its action is
neither `add` nor `remove`; an event it does return carries one of the four
registered names, never another one. -/
theorem eventAdapter_none_iff_unsupported (sn : String) (ui : List PropertyType) (e : UEvent) :
    (EventAdapter sn ui e = none ↔
      (e.Env.get? "DEVTYPE" ≠ some "disk" ∧ e.Env.get? "DEVTYPE" ≠ some "partition") ∨
      (e.Action ≠ "add" ∧ e.Action ≠ "remove")) ∧
    (e.Env.get? "DEVTYPE" = none → EventAdapter sn ui e = none) ∧
    (∀ ev, EventAdapter sn ui e = some ev →
      ev.Name ∈ [sn ++ ":" ++ "disk" ++ ":" ++ "added", sn ++ ":" ++ "disk" ++ ":" ++ "removed",
        sn ++ ":" ++ "partition" ++ ":" ++ "added",
        sn ++ ":" ++ "partition" ++ ":" ++ "removed"]) := by
  have key : ∀ dt : String, e.Env.getD "DEVTYPE" "" = dt →
      (dt = "disk" ↔ e.Env.get? "DEVTYPE" = some "disk") ∧
      (dt = "partition" ↔ e.Env.get? "DEVTYPE" = some "partition") := by
    intro dt hdt
    unfold GoMap.getD at hdt
    cases hg : GoMap.get? e.Env "DEVTYPE" with
    | none =>
      rw [hg] at hdt
      simp only [Option.getD_none] at hdt
      subst hdt
      simp
    | some v =>
      rw [hg] at hdt
      simp only [Option.getD_some] at hdt
      subst hdt
      simp
  obtain ⟨kd, kp⟩ := key _ rfl
  unfold EventAdapter
  simp only [EventTypes_eq]
  generalize e.Env.getD "DEVTYPE" "" = dt at kd kp
  by_cases h1 : dt = "disk"
  · have g1 := kd.1 h1
    subst h1
    by_cases a1 : e.Action = "add"
    · simp [GoMap.getD, GoMap.get?, a1, g1]
    · by_cases a2 : e.Action = "remove"
      · simp [GoMap.getD, GoMap.get?, a2, g1]
      · have b1 : ¬ "add" = e.Action := fun h => a1 h.symm
        have b2 : ¬ "remove" = e.Action := fun h => a2 h.symm
        simp [GoMap.getD, GoMap.get?, a1, a2, b1, b2, g1]
  · by_cases h2 : dt = "partition"
    · have g2 := kp.1 h2
      subst h2
      by_cases a1 : e.Action = "add"
      · simp [GoMap.getD, GoMap.get?, a1, g2]
      · by_cases a2 : e.Action = "remove"
        · simp [GoMap.getD, GoMap.get?, a2, g2]
        · have b1 : ¬ "add" = e.Action := fun h => a1 h.symm
          have b2 : ¬ "remove" = e.Action := fun h => a2 h.symm
          simp [GoMap.getD, GoMap.get?, a1, a2, b1, b2, g2]
    · have g1 : ¬ e.Env.get? "DEVTYPE" = some "disk" := fun h => h1 (kd.2 h)
      have g2 : ¬ e.Env.get? "DEVTYPE" = some "partition" := fun h => h2 (kp.2 h)
      have c1 : ¬ "disk" = dt := fun h => h1 h.symm
      have c2 : ¬ "partition" = dt := fun h => h2 h.symm
      simp [GoMap.getD, GoMap.get?, c1, c2, g1, g2]

/-- C3: for a notification with a supported device type `d` and action, the
`Properties` map of the returned event binds a property name `p` to `v` exactly
when `PropertyNameLookupMaps[d]` maps `p` to a raw key `k` and `env[k] = v`; so a
property whose raw key is missing from the environment is absent from the map,
and a `disk` event has no `uuid` property whatever the environment holds. -/
theorem eventAdapter_properties (sn : String) (ui : List PropertyType) (d : String)
    (e : UEvent) (hd : d = "disk" ∨ d = "partition")
    (ha : e.Action = "add" ∨ e.Action = "remove")
    (hdev : e.Env.get? "DEVTYPE" = some d) :
    ∃ ev, EventAdapter sn ui e = some ev ∧
      (∀ p v, ev.Properties.get? p = some v ↔
        ∃ k, ((PropertyNameLookupMaps sn).getD d []).get? p = some k ∧
          e.Env.get? k = some v) ∧
      (∀ p k, ((PropertyNameLookupMaps sn).getD d []).get? p = some k →
        e.Env.get? k = none → ev.Properties.get? p = none) ∧
      (∀ p, ((PropertyNameLookupMaps sn).getD d []).get? p = none →
        ev.Properties.get? p = none) ∧
      (d = "disk" → ev.Properties.get? (sn ++ ":" ++ "uuid") = none) := by
  have hD : e.Env.getD "DEVTYPE" "" = d := GoMap.getD_of_get? _ _ _ _ hdev
  have hnd : (GoMap.keys ((PropertyNameLookupMaps sn).getD d [])).Nodup := by
    rcases hd with rfl | rfl
    · exact PropertyNameLookupMaps_disk_nodup sn
    · exact PropertyNameLookupMaps_partition_nodup sn
  have hreg : ∃ et, ((EventTypes sn ui).getD d []).get? e.Action = some et := by
    rcases hd with rfl | rfl <;> rcases ha with h | h <;> rw [h] <;> exact ⟨_, rfl⟩
  obtain ⟨et, het⟩ := hreg
  refine ⟨_, EventAdapter_of_registered sn ui e d e.Action et hD rfl het, ?_, ?_, ?_, ?_⟩
  · intro p v
    show (fillProperties e.Env _ []).get? p = some v ↔ _
    rw [fillProperties_get? e.Env _ hnd [] p]
    cases hk : GoMap.get? ((PropertyNameLookupMaps sn).getD d []) p with
    | none => simp [GoMap.get?]
    | some k =>
      cases hv : GoMap.get? e.Env k with
      | none => simp [GoMap.get?, hv]
      | some w => simp [hv]
  · intro p k hk hv
    show (fillProperties e.Env _ []).get? p = none
    rw [fillProperties_get? e.Env _ hnd [] p, hk]
    simp [hv, GoMap.get?]
  · intro p hk
    show (fillProperties e.Env _ []).get? p = none
    rw [fillProperties_get? e.Env _ hnd [] p, hk]
    rfl
  · rintro rfl
    show (fillProperties e.Env _ []).get? _ = none
    rw [fillProperties_get? e.Env _ hnd [] _]
    have hk : GoMap.get? ((PropertyNameLookupMaps sn).getD "disk" []) (sn ++ ":" ++ "uuid")
        = none := by
      simp [PropertyNameLookupMaps, GoMap.getD, GoMap.get?, string_append_right_inj]
    rw [hk]
    rfl

theorem eventAdapter_properties_witness :
    ("disk" = "disk" ∨ "disk" = "partition") ∧ ("add" = "add" ∨ "add" = "remove") ∧
    GoMap.get? [("DEVTYPE", "disk"), ("ID_BUS", "usb"), ("ID_FS_UUID", "1234-ABCD")]
      "DEVTYPE" = some "disk" ∧
    ∃ ev, EventAdapter "local-storage" []
        ⟨"add", "", [("DEVTYPE", "disk"), ("ID_BUS", "usb"), ("ID_FS_UUID", "1234-ABCD")]⟩
          = some ev ∧
      ev.Properties.get? "local-storage:bus" = some "usb" ∧
      ev.Properties.get? "local-storage:vendor" = none ∧
      ev.Properties.get? "local-storage:uuid" = none := by
  refine ⟨Or.inl rfl, Or.inl rfl, rfl, ?_⟩
  obtain ⟨ev, hev, hiff, hmiss, _, huuid⟩ :=
    eventAdapter_properties "local-storage" [] "disk"
      ⟨"add", "", [("DEVTYPE", "disk"), ("ID_BUS", "usb"), ("ID_FS_UUID", "1234-ABCD")]⟩
      (Or.inl rfl) (Or.inl rfl) rfl
  exact ⟨ev, hev, (hiff "local-storage:bus" "usb").2 ⟨"ID_BUS", by decide, by decide⟩,
    hmiss "local-storage:vendor" "ID_VENDOR" (by decide) (by decide), huuid rfl⟩

/-! ### The deletion hook -/

theorem collectUpdatedMounts_eq (d : Model2.Mount) (l acc : List Model2.Mount) :
    collectUpdatedMounts d l acc = acc ++ sourcesWithout d l := by
  induction l generalizing acc with
  | nil => simp [collectUpdatedMounts, sourcesWithout]
  | cons hd tl ih =>
    by_cases h : hd.ID = d.ID
    · simp [collectUpdatedMounts, h, ih, sourcesWithout]
    · simp [collectUpdatedMounts, h, ih, sourcesWithout]

theorem dbReplaceSourceMounts_at (pre suf : List Model2.Merge) (m : Model2.Merge)
    (x : List Model2.Mount) (hpre : ∀ r ∈ pre, r.ID ≠ m.ID) (hsuf : ∀ r ∈ suf, r.ID ≠ m.ID) :
    dbReplaceSourceMounts (pre ++ m :: suf) m.ID x
      = pre ++ { m with SourceMounts := x } :: suf := by
  unfold dbReplaceSourceMounts
  rw [List.map_append, List.map_cons]
  have h1 : pre.map (fun row => if row.ID = m.ID then { row with SourceMounts := x } else row)
      = pre := by
    conv_rhs => rw [← List.map_id pre]
    apply List.map_congr_left
    intro r hr
    simp [hpre r hr]
  have h2 : suf.map (fun row => if row.ID = m.ID then { row with SourceMounts := x } else row)
      = suf := by
    conv_rhs => rw [← List.map_id suf]
    apply List.map_congr_left
    intro r hr
    simp [hsuf r hr]
  rw [h1, h2]
  simp

theorem hookLoop_spec {ω : Type} (sys : Sys ω) (d : Model2.Mount) (os : ω)
    (hdb : ∀ c, sys.dbErr os c = none) (suf : List Model2.Merge) :
    ∀ pre : List Model2.Merge, ((pre ++ suf).map (fun m => m.ID)).Nodup →
      (hookLoop sys d ⟨pre.map (mergeWithout d) ++ suf, os⟩ suf).out = .ok () ∧
      (hookLoop sys d ⟨pre.map (mergeWithout d) ++ suf, os⟩ suf).st
        = ⟨(pre ++ suf).map (mergeWithout d), os⟩ ∧
      (hookLoop sys d ⟨pre.map (mergeWithout d) ++ suf, os⟩ suf).calls
        = suf.flatMap (fun m => [Call.DbAssociation m.ID,
            Call.DbReplace m.ID (sourcesWithout d m.SourceMounts)]) := by
  induction suf with
  | nil =>
    intro pre _
    simp [hookLoop]
  | cons m rest ih =>
    intro pre hnd
    have hnd2 : (((pre ++ [m]) ++ rest).map (fun m => m.ID)).Nodup := by
      simpa using hnd
    have hpre : ∀ r ∈ pre.map (mergeWithout d), r.ID ≠ m.ID := by
      intro r hr
      obtain ⟨r0, hr0, rfl⟩ := List.mem_map.1 hr
      simp only [List.map_append, List.map_cons, List.nodup_append, List.nodup_cons] at hnd
      intro heq
      exact hnd.2.2 (List.mem_map.2 ⟨r0, hr0, rfl⟩) (by simp [← heq, mergeWithout])
    have hsuf : ∀ r ∈ rest, r.ID ≠ m.ID := by
      intro r hr heq
      simp only [List.map_append, List.map_cons, List.nodup_append, List.nodup_cons] at hnd
      exact hnd.2.1.1 (List.mem_map.2 ⟨r, hr, heq⟩)
    have hstep : dbReplaceSourceMounts (pre.map (mergeWithout d) ++ m :: rest) m.ID
        (sourcesWithout d m.SourceMounts) = pre.map (mergeWithout d) ++ mergeWithout d m :: rest :=
      dbReplaceSourceMounts_at _ rest m (sourcesWithout d m.SourceMounts) hpre hsuf
    have hnext := ih (pre ++ [m]) hnd2
    simp only [List.map_append, List.map_cons, List.map_nil, List.append_assoc,
      List.singleton_append] at hnext
    simp only [hookLoop, hdb, collectUpdatedMounts_eq, List.nil_append, hstep]
    refine ⟨hnext.1, ?_, ?_⟩
    · rw [hnext.2.1]
      simp
    · rw [hnext.2.2]
      simp [List.flatMap_cons]

/-- C4: `hookAfterDeleteMountPoint`, called for a deleted record `d` on a repository
whose persistence engine reports no error, hands to `Replace`, for each merge,
the sub-sequence of its sources whose `ID` differs from that of `d`, and leaves
each merge row with exactly that list: no source with the `ID` of `d` is left,
the sources that stay keep their order, and a merge that did not refer to `d`
gets back the row it had. -/
theorem hookAfterDeleteMountPoint_cascade {ω : Type} (sys : Sys ω) (st : State ω)
    (d : Model2.Mount) (hdb : ∀ c, sys.dbErr st.os c = none)
    (hpk : (st.merges.map (fun m => m.ID)).Nodup) :
    (hookAfterDeleteMountPoint sys st true (.Mount d)).out = .ok () ∧
    (hookAfterDeleteMountPoint sys st true (.Mount d)).calls
      = .DbFindMerges :: st.merges.flatMap (fun m => [Call.DbAssociation m.ID,
          Call.DbReplace m.ID (m.SourceMounts.filter (fun s => decide (s.ID ≠ d.ID)))]) ∧
    (hookAfterDeleteMountPoint sys st true (.Mount d)).st.os = st.os ∧
    List.Forall₂
      (fun old new =>
        new.ID = old.ID ∧ new.FSType = old.FSType ∧ new.MountPoint = old.MountPoint ∧
        new.SourceBasePath = old.SourceBasePath ∧
        new.SourceMounts = old.SourceMounts.filter (fun s => decide (s.ID ≠ d.ID)) ∧
        new.SourceMounts.Sublist old.SourceMounts ∧
        d ∉ new.SourceMounts ∧
        (∀ s ∈ new.SourceMounts, s.ID ≠ d.ID) ∧
        (∀ s ∈ old.SourceMounts, s.ID ≠ d.ID → s ∈ new.SourceMounts) ∧
        ((∀ s ∈ old.SourceMounts, s.ID ≠ d.ID) → new = old))
      st.merges (hookAfterDeleteMountPoint sys st true (.Mount d)).st.merges := by
  obtain ⟨merges, os⟩ := st
  have h := hookLoop_spec sys d os hdb merges [] (by simpa using hpk)
  simp only [List.map_nil, List.nil_append] at h
  obtain ⟨hout, hst, hcalls⟩ := h
  have hfind : sys.dbErr os .DbFindMerges = none := hdb _
  simp only [hookAfterDeleteMountPoint, hfind, if_true, hout, hst, hcalls]
  refine ⟨trivial, rfl, trivial, ?_⟩
  rw [List.forall₂_map_right_iff, List.forall₂_same]
  intro m _
  refine ⟨rfl, rfl, rfl, rfl, rfl, List.filter_sublist _, ?_, ?_, ?_, ?_⟩
  · intro hmem
    have := (List.mem_filter.1 hmem).2
    simp at this
  · intro s hs
    have := (List.mem_filter.1 hs).2
    simpa using this
  · intro s hs hne
    exact List.mem_filter.2 ⟨hs, by simpa using hne⟩
  · intro hall
    have hfil : sourcesWithout d m.SourceMounts = m.SourceMounts := by
      unfold sourcesWithout
      rw [List.filter_eq_self]
      intro s hs
      simpa using hall s hs
    simp [mergeWithout, hfil]

theorem hookAfterDeleteMountPoint_cascade_witness :
    (∀ c, machineSys.dbErr (bareMachine false) c = none) ∧
    ([merge1, merge2].map (fun m => m.ID)).Nodup ∧
    (hookAfterDeleteMountPoint machineSys ⟨[merge1, merge2], bareMachine false⟩ true
        (.Mount volume1)).out = .ok () ∧
    ((hookAfterDeleteMountPoint machineSys ⟨[merge1, merge2], bareMachine false⟩ true
        (.Mount volume1)).st.merges.map (fun m => m.SourceMounts))
      = [[volume2], [volume2]] := by
  have hdb : ∀ c, machineSys.dbErr (bareMachine false) c = none := fun _ => rfl
  have hpk : ([merge1, merge2].map (fun m => m.ID)).Nodup := by decide
  have h := hookAfterDeleteMountPoint_cascade machineSys
    ⟨[merge1, merge2], bareMachine false⟩ volume1 hdb hpk
  exact ⟨hdb, hpk, h.1, by decide⟩

/-! ### `CreateMerge` -/

theorem dbWhereMountPoint_length_pos (table : List Model2.Merge) (mountPoint : String)
    (existing : Model2.Merge) (hmem : existing ∈ table)
    (hmp : existing.MountPoint = mountPoint) :
    (dbWhereMountPoint table mountPoint).length > 0 := by
  unfold dbWhereMountPoint
  have hin : existing ∈ table.filter (fun row => decide (row.MountPoint = mountPoint)) :=
    List.mem_filter.2 ⟨hmem, by simpa using hmp⟩
  cases hf : table.filter (fun row => decide (row.MountPoint = mountPoint)) with
  | nil => rw [hf] at hin; cases hin
  | cons a l => simp

/-- C8: when the repository already holds a merge with the mount point of the merge
passed to `CreateMerge`, the call returns an error after its lookup alone: it
issues no `Mount`, creates no source directory, inserts no row and leaves the
state as it was; the error is `ErrMergeMountPointAlreadyExists` whenever the
lookup itself succeeded. -/
theorem CreateMerge_mount_point_conflict {ω : Type} (sys : Sys ω) (st : State ω)
    (merge existing : Model2.Merge) (hmem : existing ∈ st.merges)
    (hmp : existing.MountPoint = merge.MountPoint) :
    (∃ e, (CreateMerge sys st merge).out = .error e) ∧
    (sys.dbErr st.os (.DbWhereMountPoint merge.MountPoint) = none →
      (CreateMerge sys st merge).out = .error .ErrMergeMountPointAlreadyExists) ∧
    (CreateMerge sys st merge).calls = [.DbWhereMountPoint merge.MountPoint] ∧
    (∀ c ∈ (CreateMerge sys st merge).calls,
      (∀ req, c ≠ .Mount req) ∧ (∀ path, c ≠ .IsNotExistMkDir path) ∧
      (∀ row, c ≠ .DbCreate row)) ∧
    (CreateMerge sys st merge).st.merges = st.merges ∧
    (CreateMerge sys st merge).st.os = st.os := by
  have hpos := dbWhereMountPoint_length_pos st.merges merge.MountPoint existing hmem hmp
  cases hq : sys.dbErr st.os (.DbWhereMountPoint merge.MountPoint) with
  | some e => simp [CreateMerge, hq]
  | none => simp [CreateMerge, hq, hpos]

theorem CreateMerge_mount_point_conflict_witness :
    merge1 ∈ [merge1, merge2] ∧
    merge1.MountPoint = (⟨0, "fuse.mergerfs", "/mnt/merge1", some "/data/other", []⟩ :
      Model2.Merge).MountPoint ∧
    (CreateMerge machineSys ⟨[merge1, merge2], bareMachine false⟩
        ⟨0, "fuse.mergerfs", "/mnt/merge1", some "/data/other", []⟩).out
      = .error .ErrMergeMountPointAlreadyExists ∧
    (CreateMerge machineSys ⟨[merge1, merge2], bareMachine false⟩
        ⟨0, "fuse.mergerfs", "/mnt/merge1", some "/data/other", []⟩).st.merges
      = [merge1, merge2] :=
  ⟨by decide, rfl,
    (CreateMerge_mount_point_conflict machineSys ⟨[merge1, merge2], bareMachine false⟩
      ⟨0, "fuse.mergerfs", "/mnt/merge1", some "/data/other", []⟩ merge1 (by decide) rfl).2.1
      rfl,
    (CreateMerge_mount_point_conflict machineSys ⟨[merge1, merge2], bareMachine false⟩
      ⟨0, "fuse.mergerfs", "/mnt/merge1", some "/data/other", []⟩ merge1
      (by decide) rfl).2.2.2.2.1⟩

/-! ### `UpdateMerge` and `CheckMergeMount` -/

theorem foldl_append_mountPoints (mounts : List Model2.Mount) (acc : List String) :
    mounts.foldl (fun sources mount => sources ++ [mount.MountPoint]) acc
      = acc ++ mounts.map (fun mount => mount.MountPoint) := by
  induction mounts generalizing acc with
  | nil => simp
  | cons hd tl ih => simp [ih]

theorem appendMountPoints_eq (base : String) (merge : Model2.Merge) :
    appendMountPoints base merge.SourceMounts = expectedSources base merge := by
  simp [appendMountPoints, expectedSources, foldl_append_mountPoints]

theorem persistSourceMounts_calls_not_repair {ω : Type} (sys : Sys ω) (st : State ω)
    (merge : Model2.Merge) (mounts : List Model2.Mount) :
    ∀ c ∈ (persistSourceMounts sys st merge mounts).calls, c.isRepair = false := by
  unfold persistSourceMounts
  cases sys.dbErr st.os (.DbAssociation merge.ID) with
  | some e => simp [Call.isRepair]
  | none =>
    cases sys.dbErr st.os (.DbReplace merge.ID mounts) with
    | some e => simp [Call.isRepair]
    | none => simp [Call.isRepair]

theorem updateAndLog_calls {ω : Type} (sys : Sys ω) (st : State ω) (merge : Model2.Merge) :
    (updateAndLog sys st merge).calls
      = (UpdateMerge sys st merge.MountPoint merge.SourceMounts).calls := by
  rfl

theorem updateAndLog_st {ω : Type} (sys : Sys ω) (st : State ω) (merge : Model2.Merge) :
    (updateAndLog sys st merge).st
      = (UpdateMerge sys st merge.MountPoint merge.SourceMounts).st := by
  rfl

/-- The calls of `UpdateMerge` when the record is found, the mount point exists and
the `ListValues` probe fails: it mounts, and does not set sources. -/
theorem UpdateMerge_calls_of_probe_failure {ω : Type} (sys : Sys ω) (st : State ω)
    (merge : Model2.Merge) (base : String) (err : Err)
    (hbase : merge.SourceBasePath = some base)
    (hdb : sys.dbErr st.os (.DbFirst merge.MountPoint) = none)
    (hfirst : dbFirst st.merges merge.MountPoint = some merge)
    (hstat : sys.Stat st.os merge.MountPoint = none)
    (hprobe : sys.ListValues st.os merge.MountPoint = some err) :
    ∃ tail, (UpdateMerge sys st merge.MountPoint merge.SourceMounts).calls
        = [.DbFirst merge.MountPoint, .Stat merge.MountPoint, .ListValues merge.MountPoint,
            .Mount (mountRequest base merge)] ++ tail ∧
      ∀ c ∈ tail, c.isRepair = false := by
  have hexp := appendMountPoints_eq base merge
  cases hm : sys.Mount st.os (mountRequest base merge) with
  | mk e os1 =>
    unfold mountRequest at hm
    cases e with
    | some e =>
      refine ⟨[], ?_, by simp⟩
      simp [UpdateMerge, hdb, hfirst, hstat, hbase, hprobe, hexp, hm, mountRequest]
    | none =>
      refine ⟨(persistSourceMounts sys { st with os := os1 } merge merge.SourceMounts).calls,
        ?_, persistSourceMounts_calls_not_repair _ _ _ _⟩
      simp [UpdateMerge, hdb, hfirst, hstat, hbase, hprobe, hexp, hm, mountRequest]

/-- `UpdateMerge` repairs nothing when the record lookup fails or finds no record,
or when `os.Stat` fails on the mount point: it returns before the probe. -/
theorem UpdateMerge_no_repair_of_guard {ω : Type} (sys : Sys ω) (st : State ω)
    (mountPoint : String) (mounts : List Model2.Mount)
    (h : sys.dbErr st.os (.DbFirst mountPoint) ≠ none ∨ dbFirst st.merges mountPoint = none ∨
      sys.Stat st.os mountPoint ≠ none) :
    ∀ c ∈ (UpdateMerge sys st mountPoint mounts).calls, c.isRepair = false := by
  unfold UpdateMerge
  cases hq : sys.dbErr st.os (.DbFirst mountPoint) with
  | some e => simp [Call.isRepair]
  | none =>
    cases hf : dbFirst st.merges mountPoint with
    | none => simp [Call.isRepair]
    | some record =>
      cases hs : sys.Stat st.os mountPoint with
      | some e => simp [Call.isRepair]
      | none => simp [hq, hf, hs] at h

/-- C6, as stated, fails: `merge1` is mounted with its declared type and the union
driver reports its sources in another order, but `os.Stat` fails on the mount
point; `UpdateMerge` returns at that guard, and the iteration issues no
`SetSource` (and no `Mount`). -/
theorem checkMerge_set_source_counterexample :
    mountNeeded merge1 [liveMount1] = some false ∧
    (∃ live, machineSys.GetSource (driftedMachine []) merge1.MountPoint = .ok live ∧
      live ≠ ["/data/merge1", "/mnt/v1", "/mnt/v2"]) ∧
    (checkMerge machineSys [liveMount1] ⟨[merge1], driftedMachine []⟩ merge1).calls
      = [.GetSource "/mnt/merge1", .DbFirst "/mnt/merge1", .Stat "/mnt/merge1"] ∧
    Call.SetSource "/mnt/merge1" ["/data/merge1", "/mnt/v1", "/mnt/v2"] ∉
      (checkMerge machineSys [liveMount1] ⟨[merge1], driftedMachine []⟩ merge1).calls ∧
    (CheckMergeMount machineSys ⟨[merge1], driftedMachine []⟩).calls
      = [.DbFindMerges, .GetMounts, .GetSource "/mnt/merge1", .DbFirst "/mnt/merge1",
          .Stat "/mnt/merge1"] := by
  refine ⟨by decide, ⟨_, rfl, by decide⟩, by decide, by decide, by decide⟩

/-- C6, amended: for a merge that is already mounted with its declared type and
whose live source list `GetSource` reports, the expected list is the base path
followed by the sources' mount points in stored order, and the comparison is by
exact, order-sensitive equality.  When the two lists are equal the iteration
issues `GetSource` and nothing else.  When they differ in any way, the iteration
calls `UpdateMerge`, whose guards decide what follows: if the record lookup fails
or finds no record, or `os.Stat` fails on the mount point, neither `SetSource`
nor `Mount` is issued; if the lookup returns the merge, `os.Stat` succeeds and
the `ListValues` probe succeeds, `SetSource` is issued with the expected list,
and no `Mount`; if the probe fails instead, `Mount` is issued with the joined
expected list as source, and no `SetSource`. -/
theorem checkMerge_compares_sources_in_order {ω : Type} (sys : Sys ω)
    (codegenMounts : List Codegen.Mount) (st : State ω) (merge : Model2.Merge)
    (base : String) (live : List String)
    (hmounted : mountNeeded merge codegenMounts = some false)
    (hbase : merge.SourceBasePath = some base)
    (hlive : sys.GetSource st.os merge.MountPoint = .ok live) :
    appendMountPoints base merge.SourceMounts
      = base :: merge.SourceMounts.map (fun mount => mount.MountPoint) ∧
    (live = base :: merge.SourceMounts.map (fun mount => mount.MountPoint) →
      (checkMerge sys codegenMounts st merge).calls = [.GetSource merge.MountPoint] ∧
      (checkMerge sys codegenMounts st merge).st.merges = st.merges ∧
      (checkMerge sys codegenMounts st merge).st.os = st.os ∧
      (checkMerge sys codegenMounts st merge).out = .ok ()) ∧
    (live ≠ base :: merge.SourceMounts.map (fun mount => mount.MountPoint) →
      (checkMerge sys codegenMounts st merge).calls
        = .GetSource merge.MountPoint ::
            (UpdateMerge sys st merge.MountPoint merge.SourceMounts).calls ∧
      ((sys.dbErr st.os (.DbFirst merge.MountPoint) ≠ none ∨
          dbFirst st.merges merge.MountPoint = none ∨
          sys.Stat st.os merge.MountPoint ≠ none) →
        ∀ c ∈ (checkMerge sys codegenMounts st merge).calls, c.isRepair = false) ∧
      (sys.dbErr st.os (.DbFirst merge.MountPoint) = none →
        dbFirst st.merges merge.MountPoint = some merge →
        sys.Stat st.os merge.MountPoint = none →
        sys.ListValues st.os merge.MountPoint = none →
        ∃ tail, (checkMerge sys codegenMounts st merge).calls
            = [.GetSource merge.MountPoint, .DbFirst merge.MountPoint,
                .Stat merge.MountPoint, .ListValues merge.MountPoint,
                .SetSource merge.MountPoint
                  (base :: merge.SourceMounts.map (fun mount => mount.MountPoint))] ++ tail ∧
          ∀ c ∈ tail, c.isRepair = false) ∧
      (sys.dbErr st.os (.DbFirst merge.MountPoint) = none →
        dbFirst st.merges merge.MountPoint = some merge →
        sys.Stat st.os merge.MountPoint = none →
        (∃ err, sys.ListValues st.os merge.MountPoint = some err) →
        ∃ tail, (checkMerge sys codegenMounts st merge).calls
            = [.GetSource merge.MountPoint, .DbFirst merge.MountPoint,
                .Stat merge.MountPoint, .ListValues merge.MountPoint,
                .Mount
                  { MountPoint := merge.MountPoint, Fstype := some merge.FSType,
                    Source := some (":".intercalate
                      (base :: merge.SourceMounts.map (fun mount => mount.MountPoint))),
                    Options := none }] ++ tail ∧
          ∀ c ∈ tail, c.isRepair = false)) := by
  have hexp := appendMountPoints_eq base merge
  unfold expectedSources at hexp
  refine ⟨hexp, ?_, ?_⟩
  · intro heq
    simp [checkMerge, hmounted, hlive, hbase, hexp, CompareStringSlices, heq]
  · intro hne
    have hcalls : (checkMerge sys codegenMounts st merge).calls
        = .GetSource merge.MountPoint ::
            (UpdateMerge sys st merge.MountPoint merge.SourceMounts).calls := by
      simp [checkMerge, hmounted, hlive, hbase, hexp, CompareStringSlices, hne,
        updateAndLog_calls]
    refine ⟨hcalls, ?_, ?_, ?_⟩
    · intro hguard c hc
      rw [hcalls] at hc
      rcases List.mem_cons.1 hc with rfl | hc
      · rfl
      · exact UpdateMerge_no_repair_of_guard sys st _ _ hguard c hc
    · intro hdb hfirst hstat hprobe
      rw [hcalls]
      cases hset : sys.SetSource st.os merge.MountPoint
          (base :: merge.SourceMounts.map (fun mount => mount.MountPoint)) with
      | mk err os1 =>
        cases err with
        | some e =>
          refine ⟨[], ?_, by simp⟩
          simp [UpdateMerge, hdb, hfirst, hstat, hbase, hexp, hprobe, hset]
        | none =>
          refine ⟨(persistSourceMounts sys { st with os := os1 } merge
            merge.SourceMounts).calls, ?_, persistSourceMounts_calls_not_repair _ _ _ _⟩
          simp [UpdateMerge, hdb, hfirst, hstat, hbase, hexp, hprobe, hset]
    · rintro hdb hfirst hstat ⟨err, hprobe⟩
      rw [hcalls]
      obtain ⟨tail, htail, hrep⟩ :=
        UpdateMerge_calls_of_probe_failure sys st merge base err hbase hdb hfirst hstat hprobe
      refine ⟨tail, ?_, hrep⟩
      rw [htail]
      simp [mountRequest, expectedSources]

theorem checkMerge_compares_sources_in_order_witness :
    mountNeeded merge1 [liveMount1] = some false ∧
    merge1.SourceBasePath = some "/data/merge1" ∧
    machineSys.GetSource (liveMachine ["/data/merge1", "/mnt/v2", "/mnt/v1"]) merge1.MountPoint
      = .ok ["/data/merge1", "/mnt/v2", "/mnt/v1"] ∧
    appendMountPoints "/data/merge1" merge1.SourceMounts
      = ["/data/merge1", "/mnt/v1", "/mnt/v2"] ∧
    Call.SetSource "/mnt/merge1" ["/data/merge1", "/mnt/v1", "/mnt/v2"] ∈
      (checkMerge machineSys [liveMount1]
        ⟨[merge1], liveMachine ["/data/merge1", "/mnt/v2", "/mnt/v1"]⟩ merge1).calls ∧
    (∀ c ∈ (checkMerge machineSys [liveMount1] ⟨[merge1], driftedMachine []⟩ merge1).calls,
      c.isRepair = false) := by
  have h := checkMerge_compares_sources_in_order machineSys [liveMount1]
    ⟨[merge1], liveMachine ["/data/merge1", "/mnt/v2", "/mnt/v1"]⟩ merge1 "/data/merge1"
    ["/data/merge1", "/mnt/v2", "/mnt/v1"] (by decide) rfl rfl
  have h2 := checkMerge_compares_sources_in_order machineSys [liveMount1]
    ⟨[merge1], driftedMachine []⟩ merge1 "/data/merge1"
    ["/data/merge1", "/mnt/v2", "/mnt/v1"] (by decide) rfl rfl
  refine ⟨by decide, rfl, rfl, h.1, ?_,
    (h2.2.2 (by decide)).2.1 (Or.inr (Or.inr (by decide)))⟩
  obtain ⟨tail, htail, _⟩ :=
    (h.2.2 (by decide)).2.2.1 rfl (by decide) (by decide) (by decide)
  rw [htail]
  simp [merge1, volume1, volume2]

/-- C10, as stated, fails: `/mnt/merge1` is in the mount table with the declared type
of `merge1`, the union driver knows no live union mount there, so the probe
`ListValues` fails, and `GetSource` fails as well; `CheckMergeMount` logs that
and goes on, and issues no `Mount` call. -/
theorem checkMerge_self_heal_counterexample :
    mountNeeded merge1 [liveMount1] = some false ∧
    machineSys.ListValues staleMachine merge1.MountPoint ≠ none ∧
    (checkMerge machineSys [liveMount1] ⟨[merge1], staleMachine⟩ merge1).calls
      = [.GetSource "/mnt/merge1"] ∧
    (CheckMergeMount machineSys ⟨[merge1], staleMachine⟩).calls
      = [.DbFindMerges, .GetMounts, .GetSource "/mnt/merge1"] ∧
    Call.Mount (mountRequest "/data/merge1" merge1) ∉
      (CheckMergeMount machineSys ⟨[merge1], staleMachine⟩).calls := by
  refine ⟨by decide, by decide, by decide, by decide, by decide⟩

/-- C10, amended: for a merge whose mount point has a live mount of the declared
type, a failing `GetSource` is logged and the iteration issues nothing else, no
`Mount` in particular.  The `ListValues` probe sits in `UpdateMerge`, which the
loop calls when no live mount of the declared type is at the mount point, or when
`GetSource` reported a list other than the expected one; there, when the record
is found and the mount point exists, a failing probe leads to a `Mount` call with
the base path joined with the sources' mount points as source, the merge's mount
point and its type, and to no `SetSource`. -/
theorem checkMerge_mounts_on_probe_failure {ω : Type} (sys : Sys ω)
    (codegenMounts : List Codegen.Mount) (st : State ω) (merge : Model2.Merge)
    (base : String) (hbase : merge.SourceBasePath = some base) :
    (mountNeeded merge codegenMounts = some false →
      (∃ e, sys.GetSource st.os merge.MountPoint = .error e) →
      (checkMerge sys codegenMounts st merge).calls = [.GetSource merge.MountPoint] ∧
      (checkMerge sys codegenMounts st merge).st.merges = st.merges ∧
      (checkMerge sys codegenMounts st merge).st.os = st.os ∧
      (checkMerge sys codegenMounts st merge).out = .ok ()) ∧
    ((mountNeeded merge codegenMounts = some true ∨
        (mountNeeded merge codegenMounts = some false ∧
          ∃ live, sys.GetSource st.os merge.MountPoint = .ok live ∧
            live ≠ expectedSources base merge)) →
      sys.dbErr st.os (.DbFirst merge.MountPoint) = none →
      dbFirst st.merges merge.MountPoint = some merge →
      sys.Stat st.os merge.MountPoint = none →
      (∃ err, sys.ListValues st.os merge.MountPoint = some err) →
      Call.Mount
          { MountPoint := merge.MountPoint, Fstype := some merge.FSType,
            Source := some (":".intercalate
              (base :: merge.SourceMounts.map (fun mount => mount.MountPoint))),
            Options := none } ∈ (checkMerge sys codegenMounts st merge).calls ∧
      ∀ mountPoint sources,
        Call.SetSource mountPoint sources ∉ (checkMerge sys codegenMounts st merge).calls) := by
  refine ⟨?_, ?_⟩
  · rintro hmounted ⟨e, he⟩
    simp [checkMerge, hmounted, he]
  · rintro hcase hdb hfirst hstat ⟨err, hprobe⟩
    obtain ⟨tail, htail, hrep⟩ :=
      UpdateMerge_calls_of_probe_failure sys st merge base err hbase hdb hfirst hstat hprobe
    have hcalls : ∃ pre, (checkMerge sys codegenMounts st merge).calls
        = pre ++ (UpdateMerge sys st merge.MountPoint merge.SourceMounts).calls ∧
        ∀ c ∈ pre, c.isRepair = false := by
      rcases hcase with hneeded | ⟨hmounted, live, hlive, hne⟩
      · exact ⟨[], by simp [checkMerge, hneeded, updateAndLog_calls], by simp⟩
      · refine ⟨[.GetSource merge.MountPoint], ?_, by simp [Call.isRepair]⟩
        have hne2 : live ≠ appendMountPoints base merge.SourceMounts := by
          rw [appendMountPoints_eq]; exact hne
        simp [checkMerge, hmounted, hlive, hbase, CompareStringSlices, hne2, updateAndLog_calls]
    obtain ⟨pre, hpre, hprerep⟩ := hcalls
    rw [hpre, htail]
    refine ⟨?_, ?_⟩
    · simp [mountRequest, expectedSources]
    · intro mountPoint sources hmem
      simp only [List.mem_append, List.mem_cons, List.mem_singleton] at hmem
      rcases hmem with h | h | h
      · simpa [Call.isRepair] using hprerep _ h
      · simp at h
      · simpa [Call.isRepair] using hrep _ h

theorem checkMerge_mounts_on_probe_failure_witness :
    merge1.SourceBasePath = some "/data/merge1" ∧
    mountNeeded merge1 [] = some true ∧
    machineSys.ListValues (bareMachine false) merge1.MountPoint ≠ none ∧
    Call.Mount ⟨"/mnt/merge1", some "fuse.mergerfs", some "/data/merge1:/mnt/v1:/mnt/v2", none⟩
      ∈ (checkMerge machineSys [] ⟨[merge1], bareMachine false⟩ merge1).calls ∧
    mountNeeded merge1 [liveMount1] = some false ∧
    (checkMerge machineSys [liveMount1] ⟨[merge1], staleMachine⟩ merge1).calls
      = [.GetSource merge1.MountPoint] := by
  have h := checkMerge_mounts_on_probe_failure machineSys [] ⟨[merge1], bareMachine false⟩
    merge1 "/data/merge1" rfl
  have h2 := checkMerge_mounts_on_probe_failure machineSys [liveMount1] ⟨[merge1], staleMachine⟩
    merge1 "/data/merge1" rfl
  refine ⟨rfl, by decide, by decide, ?_, by decide, (h2.1 (by decide) ⟨_, rfl⟩).1⟩
  exact (h.2 (Or.inl (by decide)) rfl (by decide) (by decide) ⟨_, rfl⟩).1

/-- The iteration for a settled merge reads the live sources and does nothing
else. -/
theorem checkMerge_of_settled {ω : Type} (sys : Sys ω) (codegenMounts : List Codegen.Mount)
    (st : State ω) (merge : Model2.Merge)
    (h : settled sys codegenMounts st.os merge = true) :
    checkMerge sys codegenMounts st merge = ⟨st, [.GetSource merge.MountPoint], .ok ()⟩ := by
  unfold settled at h
  cases hm : mountNeeded merge codegenMounts with
  | none => simp [hm] at h
  | some b =>
    cases b with
    | true => simp [hm] at h
    | false =>
      cases hb : merge.SourceBasePath with
      | none => simp [hm, hb] at h
      | some base =>
        cases hg : sys.GetSource st.os merge.MountPoint with
        | error e => simp [hm, hb, hg] at h
        | ok live =>
          simp only [hm, hb, hg, decide_eq_true_eq] at h
          simp [checkMerge, hm, hb, hg, CompareStringSlices, appendMountPoints_eq, h]

theorem checkMergeLoop_of_settled {ω : Type} (sys : Sys ω)
    (codegenMounts : List Codegen.Mount) (st : State ω) (mergeList : List Model2.Merge)
    (h : ∀ merge ∈ mergeList, settled sys codegenMounts st.os merge = true) :
    checkMergeLoop sys codegenMounts st mergeList
      = ⟨st, mergeList.map (fun merge => Call.GetSource merge.MountPoint), .ok ()⟩ := by
  induction mergeList with
  | nil => rfl
  | cons merge rest ih =>
    have h1 := checkMerge_of_settled sys codegenMounts st merge (h merge (by simp))
    have h2 := ih (fun m hm => h m (by simp [hm]))
    simp [checkMergeLoop, h1, h2]

/-- A run of `CheckMergeMount` from a state in which every declared merge is
settled repairs nothing and leaves the state as it is. -/
theorem CheckMergeMount_of_settled {ω : Type} (sys : Sys ω) (st : State ω)
    (h : ∀ codegenMounts, sys.GetMounts st.os = .ok codegenMounts →
      ∀ merge ∈ st.merges, settled sys codegenMounts st.os merge = true) :
    (∀ c ∈ (CheckMergeMount sys st).calls, c.isRepair = false) ∧
    (CheckMergeMount sys st).st.merges = st.merges ∧
    (CheckMergeMount sys st).st.os = st.os ∧
    (CheckMergeMount sys st).out = .ok () := by
  unfold CheckMergeMount GetMergeAll
  cases hdb : sys.dbErr st.os .DbFindMerges with
  | some e => simp [Call.isRepair]
  | none =>
    cases hm : sys.GetMounts st.os with
    | error e => simp [Call.isRepair]
    | ok codegenMounts =>
      have hl := checkMergeLoop_of_settled sys codegenMounts st st.merges (h codegenMounts hm)
      refine ⟨?_, by simp [hl], by simp [hl], by simp [hl]⟩
      intro c hc
      simp only [hl, List.mem_cons, List.mem_map] at hc
      rcases hc with rfl | rfl | ⟨m, _, rfl⟩ <;> rfl

/-- C7, as stated, fails: on a machine that refuses to mount, the first run of
`CheckMergeMount` issues a `Mount` for `merge1` that fails and changes nothing,
and the second run, started from the state the first one left, issues the same
`Mount` again. -/
theorem CheckMergeMount_second_run_counterexample :
    (CheckMergeMount machineSys ⟨[merge1], bareMachine true⟩).st.merges = [merge1] ∧
    (CheckMergeMount machineSys ⟨[merge1], bareMachine true⟩).st.os = bareMachine true ∧
    (CheckMergeMount machineSys
        (CheckMergeMount machineSys ⟨[merge1], bareMachine true⟩).st).calls
      = [.DbFindMerges, .GetMounts, .DbFirst "/mnt/merge1", .Stat "/mnt/merge1",
          .ListValues "/mnt/merge1",
          .Mount ⟨"/mnt/merge1", some "fuse.mergerfs",
            some "/data/merge1:/mnt/v1:/mnt/v2", none⟩] ∧
    ¬ ∀ c ∈ (CheckMergeMount machineSys
        (CheckMergeMount machineSys ⟨[merge1], bareMachine true⟩).st).calls,
      c.isRepair = false := by
  refine ⟨by decide, by decide, by decide, by decide⟩

/-- C7, amended: once reconciliation has converged, it is idempotent.  If the first
run of `CheckMergeMount` leaves every declared merge settled (a live mount of its
declared type at its mount point, and `GetSource` reporting its expected list),
then the second run, started from the state the first one left, issues no `Mount`
and no `SetSource` call and leaves the state unchanged. -/
theorem CheckMergeMount_idempotent_once_settled {ω : Type} (sys : Sys ω) (st : State ω)
    (hsettled : ∀ codegenMounts,
      sys.GetMounts (CheckMergeMount sys st).st.os = .ok codegenMounts →
      ∀ merge ∈ (CheckMergeMount sys st).st.merges,
        settled sys codegenMounts (CheckMergeMount sys st).st.os merge = true) :
    (∀ c ∈ (CheckMergeMount sys (CheckMergeMount sys st).st).calls,
      (∀ req, c ≠ .Mount req) ∧ ∀ mountPoint sources, c ≠ .SetSource mountPoint sources) ∧
    (CheckMergeMount sys (CheckMergeMount sys st).st).st.merges
      = (CheckMergeMount sys st).st.merges ∧
    (CheckMergeMount sys (CheckMergeMount sys st).st).st.os = (CheckMergeMount sys st).st.os ∧
    (CheckMergeMount sys (CheckMergeMount sys st).st).out = .ok () := by
  obtain ⟨h1, h2, h3, h4⟩ := CheckMergeMount_of_settled sys (CheckMergeMount sys st).st hsettled
  refine ⟨?_, h2, h3, h4⟩
  intro c hc
  have := h1 c hc
  refine ⟨?_, ?_⟩
  · rintro req rfl
    simp [Call.isRepair] at this
  · rintro mountPoint sources rfl
    simp [Call.isRepair] at this

theorem CheckMergeMount_idempotent_once_settled_witness :
    (∃ req, Call.Mount req ∈
      (CheckMergeMount machineSys ⟨[merge1, merge2], bareMachine false⟩).calls) ∧
    (∀ codegenMounts,
      machineSys.GetMounts
          (CheckMergeMount machineSys ⟨[merge1, merge2], bareMachine false⟩).st.os
        = .ok codegenMounts →
      ∀ merge ∈ (CheckMergeMount machineSys ⟨[merge1, merge2], bareMachine false⟩).st.merges,
        settled machineSys codegenMounts
          (CheckMergeMount machineSys ⟨[merge1, merge2], bareMachine false⟩).st.os merge
            = true) ∧
    (CheckMergeMount machineSys
        (CheckMergeMount machineSys ⟨[merge1, merge2], bareMachine false⟩).st).out
      = .ok () := by
  have hs : ∀ codegenMounts,
      machineSys.GetMounts
          (CheckMergeMount machineSys ⟨[merge1, merge2], bareMachine false⟩).st.os
        = .ok codegenMounts →
      ∀ merge ∈ (CheckMergeMount machineSys ⟨[merge1, merge2], bareMachine false⟩).st.merges,
        settled machineSys codegenMounts
          (CheckMergeMount machineSys ⟨[merge1, merge2], bareMachine false⟩).st.os merge
            = true := by
    intro codegenMounts hm
    have hm2 : codegenMounts
        = (CheckMergeMount machineSys ⟨[merge1, merge2], bareMachine false⟩).st.os.mounts := by
      injection hm with hm
      exact hm.symm
    subst hm2
    decide
  exact ⟨⟨liveMount1, by decide⟩, hs,
    (CheckMergeMount_idempotent_once_settled machineSys
      ⟨[merge1, merge2], bareMachine false⟩ hs).2.2.2⟩

/-- A run in which every repair succeeds need not be the last one to repair: when
the live mount of a merge never shows the declared type, each run finds a mount
needed, `UpdateMerge` finds a live union mount and sets its sources again. -/
theorem CheckMergeMount_repeats_SetSource_example :
    (CheckMergeMount machineSys
        ⟨[merge1ShortType], liveMachine ["/data/merge1", "/mnt/v1", "/mnt/v2"]⟩).calls
      = [.DbFindMerges, .GetMounts, .DbFirst "/mnt/merge1", .Stat "/mnt/merge1",
          .ListValues "/mnt/merge1",
          .SetSource "/mnt/merge1" ["/data/merge1", "/mnt/v1", "/mnt/v2"],
          .DbAssociation 1, .DbReplace 1 [volume1, volume2]] ∧
    (CheckMergeMount machineSys
        (CheckMergeMount machineSys
          ⟨[merge1ShortType], liveMachine ["/data/merge1", "/mnt/v1", "/mnt/v2"]⟩).st).calls
      = [.DbFindMerges, .GetMounts, .DbFirst "/mnt/merge1", .Stat "/mnt/merge1",
          .ListValues "/mnt/merge1",
          .SetSource "/mnt/merge1" ["/data/merge1", "/mnt/v1", "/mnt/v2"],
          .DbAssociation 1, .DbReplace 1 [volume1, volume2]] := by
  refine ⟨by decide, by decide⟩

/-- On a repository whose merges have pairwise distinct, non-empty mount points, the
`First` query for the mount point of a stored merge returns that merge. -/
theorem dbFirst_of_mem (table : List Model2.Merge) (merge : Model2.Merge)
    (hnd : (table.map (fun row => row.MountPoint)).Nodup) (hmem : merge ∈ table)
    (hne : merge.MountPoint ≠ "") : dbFirst table merge.MountPoint = some merge := by
  induction table with
  | nil => cases hmem
  | cons row rest ih =>
    simp only [List.map_cons, List.nodup_cons] at hnd
    unfold dbFirst
    by_cases hrow : row = merge
    · subst hrow
      simp [List.find?_cons]
    · have hin : merge ∈ rest := by
        rcases List.mem_cons.1 hmem with h | h
        · exact absurd h.symm hrow
        · exact h
      have hmp : row.MountPoint ≠ merge.MountPoint := by
        intro heq
        exact hnd.1 (List.mem_map.2 ⟨merge, hin, heq.symm⟩)
      have := ih hnd.2 hin
      unfold dbFirst at this
      simp only [hne, false_or] at this
      simp [List.find?_cons, hne, hmp, this]

/-! ### Partial-failure isolation -/

theorem mountNeeded_isSome (merge : Model2.Merge) (codegenMounts : List Codegen.Mount)
    (h : ∀ cm ∈ codegenMounts, cm.Fstype ≠ none) :
    ∃ b, mountNeeded merge codegenMounts = some b := by
  induction codegenMounts with
  | nil => exact ⟨true, rfl⟩
  | cons cm rest ih =>
    have ih2 := ih (fun c hc => h c (by simp [hc]))
    unfold mountNeeded
    by_cases hmp : cm.MountPoint = merge.MountPoint
    · cases hf : cm.Fstype with
      | none => exact absurd hf (h cm (by simp))
      | some t =>
        by_cases ht : t = merge.FSType
        · exact ⟨false, by simp [hmp, ht]⟩
        · simpa [hmp, ht] using ih2
    · simpa [hmp] using ih2

theorem dbFirst_mem (table : List Model2.Merge) (mountPoint : String) (row : Model2.Merge)
    (h : dbFirst table mountPoint = some row) : row ∈ table := by
  unfold dbFirst at h
  exact List.mem_of_find?_eq_some h

theorem dbReplaceSourceMounts_basePaths (table : List Model2.Merge) (id : Nat)
    (mounts : List Model2.Mount) (h : ∀ r ∈ table, r.SourceBasePath ≠ none) :
    ∀ r ∈ dbReplaceSourceMounts table id mounts, r.SourceBasePath ≠ none := by
  intro r hr
  unfold dbReplaceSourceMounts at hr
  obtain ⟨r0, hr0, rfl⟩ := List.mem_map.1 hr
  by_cases hid : r0.ID = id
  · simpa [hid] using h r0 hr0
  · simpa [hid] using h r0 hr0

theorem persistSourceMounts_no_panic {ω : Type} (sys : Sys ω) (st : State ω)
    (merge : Model2.Merge) (mounts : List Model2.Mount)
    (h : ∀ r ∈ st.merges, r.SourceBasePath ≠ none) :
    (persistSourceMounts sys st merge mounts).out ≠ .panicked ∧
    ∀ r ∈ (persistSourceMounts sys st merge mounts).st.merges, r.SourceBasePath ≠ none := by
  unfold persistSourceMounts
  cases sys.dbErr st.os (.DbAssociation merge.ID) with
  | some e => exact ⟨by simp, h⟩
  | none =>
    cases sys.dbErr st.os (.DbReplace merge.ID mounts) with
    | some e => exact ⟨by simp, h⟩
    | none => exact ⟨by simp, dbReplaceSourceMounts_basePaths _ _ _ h⟩

/-- `UpdateMerge` opens with the `First` query and, on a repository whose records
all carry a base path, it returns (with or without an error) rather than panic. -/
theorem UpdateMerge_no_panic {ω : Type} (sys : Sys ω) (st : State ω) (mountPoint : String)
    (mounts : List Model2.Mount) (h : ∀ r ∈ st.merges, r.SourceBasePath ≠ none) :
    (UpdateMerge sys st mountPoint mounts).out ≠ .panicked ∧
    (∀ r ∈ (UpdateMerge sys st mountPoint mounts).st.merges, r.SourceBasePath ≠ none) ∧
    ∃ tail, (UpdateMerge sys st mountPoint mounts).calls = .DbFirst mountPoint :: tail := by
  unfold UpdateMerge
  cases sys.dbErr st.os (.DbFirst mountPoint) with
  | some e => exact ⟨by simp, h, ⟨_, rfl⟩⟩
  | none =>
    cases hf : dbFirst st.merges mountPoint with
    | none => exact ⟨by simp, h, ⟨_, rfl⟩⟩
    | some merge =>
      cases sys.Stat st.os mountPoint with
      | some e => exact ⟨by simp, h, ⟨_, rfl⟩⟩
      | none =>
        cases hb : merge.SourceBasePath with
        | none => exact absurd hb (h merge (dbFirst_mem _ _ _ hf))
        | some base =>
          simp only [hb]
          cases sys.ListValues st.os mountPoint with
          | some err =>
            cases hm : sys.Mount st.os
                { MountPoint := merge.MountPoint, Fstype := some merge.FSType,
                  Source := some (":".intercalate (appendMountPoints base mounts)),
                  Options := none } with
            | mk e os1 =>
              cases e with
              | some e => simp only [hm]; exact ⟨by simp, h, ⟨_, rfl⟩⟩
              | none =>
                have hp := persistSourceMounts_no_panic sys { st with os := os1 } merge mounts h
                simp only [hm]
                exact ⟨hp.1, hp.2, ⟨_, rfl⟩⟩
          | none =>
            cases hs : sys.SetSource st.os mountPoint (appendMountPoints base mounts) with
            | mk e os1 =>
              cases e with
              | some e => simp only [hs]; exact ⟨by simp, h, ⟨_, rfl⟩⟩
              | none =>
                have hp := persistSourceMounts_no_panic sys { st with os := os1 } merge mounts h
                simp only [hs]
                exact ⟨hp.1, hp.2, ⟨_, rfl⟩⟩

theorem updateAndLog_ok {ω : Type} (sys : Sys ω) (st : State ω) (merge : Model2.Merge)
    (h : ∀ r ∈ st.merges, r.SourceBasePath ≠ none) :
    (updateAndLog sys st merge).out = .ok () ∧
    (∀ r ∈ (updateAndLog sys st merge).st.merges, r.SourceBasePath ≠ none) ∧
    ∃ tail, (updateAndLog sys st merge).calls = .DbFirst merge.MountPoint :: tail := by
  obtain ⟨h1, h2, h3⟩ := UpdateMerge_no_panic sys st merge.MountPoint merge.SourceMounts h
  refine ⟨?_, h2, h3⟩
  unfold updateAndLog
  cases ho : (UpdateMerge sys st merge.MountPoint merge.SourceMounts).out with
  | ok a => simp [ho]
  | error e => simp [ho]
  | panicked => exact absurd ho h1

/-- One iteration of the loop, whatever its collaborators answer: it opens by
examining the merge, ends without an error or a panic for the loop to stop on,
and leaves the repository's records with their base paths. -/
theorem checkMerge_examines {ω : Type} (sys : Sys ω) (codegenMounts : List Codegen.Mount)
    (st : State ω) (merge : Model2.Merge)
    (hfstype : ∀ cm ∈ codegenMounts, cm.Fstype ≠ none)
    (hinv : ∀ r ∈ st.merges, r.SourceBasePath ≠ none)
    (hbase : merge.SourceBasePath ≠ none) :
    (checkMerge sys codegenMounts st merge).out = .ok () ∧
    (∀ r ∈ (checkMerge sys codegenMounts st merge).st.merges, r.SourceBasePath ≠ none) ∧
    ∃ tail, (checkMerge sys codegenMounts st merge).calls = .DbFirst merge.MountPoint :: tail ∨
      (checkMerge sys codegenMounts st merge).calls = .GetSource merge.MountPoint :: tail := by
  obtain ⟨b, hb⟩ := mountNeeded_isSome merge codegenMounts hfstype
  obtain ⟨u1, u2, tail, u3⟩ := updateAndLog_ok sys st merge hinv
  unfold checkMerge
  cases b with
  | true =>
    simp only [hb]
    exact ⟨u1, u2, tail, Or.inl u3⟩
  | false =>
    simp only [hb]
    cases hg : sys.GetSource st.os merge.MountPoint with
    | error e => exact ⟨rfl, hinv, [], Or.inr rfl⟩
    | ok live =>
      cases hsb : merge.SourceBasePath with
      | none => exact absurd hsb hbase
      | some base =>
        simp only []
        by_cases hc : (!CompareStringSlices live
            (appendMountPoints base merge.SourceMounts)) = true
        · rw [if_pos hc]
          exact ⟨u1, u2, _, Or.inr rfl⟩
        · rw [if_neg hc]
          exact ⟨rfl, hinv, [], Or.inr rfl⟩

theorem checkMergeLoop_examines {ω : Type} (sys : Sys ω) (codegenMounts : List Codegen.Mount)
    (hfstype : ∀ cm ∈ codegenMounts, cm.Fstype ≠ none) (mergeList : List Model2.Merge) :
    ∀ st : State ω, (∀ r ∈ st.merges, r.SourceBasePath ≠ none) →
      (∀ m ∈ mergeList, m.SourceBasePath ≠ none) →
      (checkMergeLoop sys codegenMounts st mergeList).out = .ok () ∧
      ∃ blocks : List (List Call),
        (checkMergeLoop sys codegenMounts st mergeList).calls = blocks.flatten ∧
        List.Forall₂
          (fun merge block =>
            (∃ s, block = (checkMerge sys codegenMounts s merge).calls) ∧
            ∃ tail, block = .DbFirst merge.MountPoint :: tail ∨
              block = .GetSource merge.MountPoint :: tail)
          mergeList blocks := by
  induction mergeList with
  | nil =>
    intro st _ _
    exact ⟨rfl, [], rfl, List.Forall₂.nil⟩
  | cons merge rest ih =>
    intro st hinv hbase
    obtain ⟨c1, c2, tail, c3⟩ := checkMerge_examines sys codegenMounts st merge hfstype hinv
      (hbase merge (by simp))
    obtain ⟨l1, blocks, l2, l3⟩ := ih (checkMerge sys codegenMounts st merge).st c2
      (fun m hm => hbase m (by simp [hm]))
    simp only [checkMergeLoop, c1]
    refine ⟨l1, (checkMerge sys codegenMounts st merge).calls :: blocks, ?_, ?_⟩
    · simp [l2]
    · exact List.Forall₂.cons ⟨⟨st, rfl⟩, tail, c3⟩ l3

/-- Where every record carries a base path and every live mount a type: once
`CheckMergeMount` has loaded the merge list and the live mounts, and whatever the
collaborators answer afterwards (each call may succeed or fail, and change the
machine as it likes), the loop reaches every merge of the list in order: the
calls after the two loads split into one block per merge, the block of a merge
being the calls of its own iteration and opening with the call that examines it
(the `First` query of `UpdateMerge`, or `GetSource`), and the run ends normally.
An error that a collaborator returns never stops the loop. -/
theorem CheckMergeMount_examines_every_merge {ω : Type} (sys : Sys ω) (st : State ω)
    (codegenMounts : List Codegen.Mount)
    (hload : sys.dbErr st.os .DbFindMerges = none)
    (hmounts : sys.GetMounts st.os = .ok codegenMounts)
    (hfstype : ∀ cm ∈ codegenMounts, cm.Fstype ≠ none)
    (hbase : ∀ m ∈ st.merges, m.SourceBasePath ≠ none) :
    (CheckMergeMount sys st).out = .ok () ∧
    ∃ blocks : List (List Call),
      (CheckMergeMount sys st).calls = .DbFindMerges :: .GetMounts :: blocks.flatten ∧
      blocks.length = st.merges.length ∧
      List.Forall₂
        (fun merge block =>
          (∃ s, block = (checkMerge sys codegenMounts s merge).calls) ∧
          ∃ tail, block = .DbFirst merge.MountPoint :: tail ∨
            block = .GetSource merge.MountPoint :: tail)
        st.merges blocks := by
  obtain ⟨l1, blocks, l2, l3⟩ :=
    checkMergeLoop_examines sys codegenMounts hfstype st.merges st hbase hbase
  refine ⟨?_, blocks, ?_, l3.length_eq.symm, l3⟩
  · simp [CheckMergeMount, GetMergeAll, hload, hmounts, l1]
  · simp [CheckMergeMount, GetMergeAll, hload, hmounts, l2]

theorem CheckMergeMount_examines_every_merge_witness :
    machineSys.dbErr (bareMachine true) .DbFindMerges = none ∧
    machineSys.GetMounts (bareMachine true) = .ok [] ∧
    (∀ m ∈ [merge1, merge2], m.SourceBasePath ≠ none) ∧
    (CheckMergeMount machineSys ⟨[merge1, merge2], bareMachine true⟩).out = .ok () ∧
    (CheckMergeMount machineSys ⟨[merge1, merge2], bareMachine true⟩).calls
      = [.DbFindMerges, .GetMounts,
          .DbFirst "/mnt/merge1", .Stat "/mnt/merge1", .ListValues "/mnt/merge1",
          .Mount ⟨"/mnt/merge1", some "fuse.mergerfs",
            some "/data/merge1:/mnt/v1:/mnt/v2", none⟩,
          .DbFirst "/mnt/merge2", .Stat "/mnt/merge2", .ListValues "/mnt/merge2",
          .Mount ⟨"/mnt/merge2", some "fuse.mergerfs", some "/data/merge2:/mnt/v2", none⟩] :=
  ⟨rfl, rfl, by decide,
    (CheckMergeMount_examines_every_merge machineSys ⟨[merge1, merge2], bareMachine true⟩ []
      rfl rfl (by simp) (by decide)).1,
    by decide⟩

/-- C9, the code at a merge list whose first record has a nil `SourceBasePath`:
whether the merge is found mounted (the list is dereferenced after `GetSource`)
or not (it is dereferenced in `UpdateMerge`, after `os.Stat`), the run panics in
the iteration of that merge, and the next merge, `merge2`, is never examined.
With the base path present the same run examines `merge2`. -/
theorem CheckMergeMount_nil_base_path_aborts :
    (CheckMergeMount machineSys
        ⟨[merge1NoBase, merge2], liveMachine ["/data/merge1", "/mnt/v1", "/mnt/v2"]⟩).out
      = .panicked ∧
    (CheckMergeMount machineSys
        ⟨[merge1NoBase, merge2], liveMachine ["/data/merge1", "/mnt/v1", "/mnt/v2"]⟩).calls
      = [.DbFindMerges, .GetMounts, .GetSource "/mnt/merge1"] ∧
    (CheckMergeMount machineSys ⟨[merge1NoBase, merge2], bareMachine false⟩).out
      = .panicked ∧
    (CheckMergeMount machineSys ⟨[merge1NoBase, merge2], bareMachine false⟩).calls
      = [.DbFindMerges, .GetMounts, .DbFirst "/mnt/merge1", .Stat "/mnt/merge1"] ∧
    (∀ c ∈ (CheckMergeMount machineSys
        ⟨[merge1NoBase, merge2], liveMachine ["/data/merge1", "/mnt/v1", "/mnt/v2"]⟩).calls,
      c.examined ≠ some "/mnt/merge2") ∧
    (∀ c ∈ (CheckMergeMount machineSys ⟨[merge1NoBase, merge2], bareMachine false⟩).calls,
      c.examined ≠ some "/mnt/merge2") ∧
    (CheckMergeMount machineSys
        ⟨[merge1, merge2], liveMachine ["/data/merge1", "/mnt/v1", "/mnt/v2"]⟩).out
      = .ok () ∧
    Call.DbFirst "/mnt/merge2" ∈
      (CheckMergeMount machineSys
        ⟨[merge1, merge2], liveMachine ["/data/merge1", "/mnt/v1", "/mnt/v2"]⟩).calls := by
  refine ⟨by decide, by decide, by decide, by decide, by decide, by decide, by decide,
    by decide⟩

/-! ### The boot-time remount -/

/-- The mount point check never leaves the recorded mount point: when `m` exists,
the suffix loop is entered with `volume = m` and its condition, that `volume`
does not exist, is false at once. -/
theorem chooseVolume_eq (checkNotExist : String → Bool) (fuel : Nat) (m : String) :
    chooseVolume checkNotExist (fuel + 1) m = some m := by
  unfold chooseVolume
  cases h : checkNotExist m with
  | true => simp
  | false => simp [suffixLoop, h]

/-- C5, the code at the input of section 8: `/mnt/disk1` is recorded for the volume
and is occupied, the suffix loop runs no iteration, the partition is mounted at
`/mnt/disk1` itself and `UpdateMountPoint` is not called. -/
theorem checkSerialDiskMount_occupied_mount_point :
    bootSys.CheckNotExist ["/mnt/disk1"] "/mnt/disk1" = false ∧
    bootSys.CheckNotExist ["/mnt/disk1"] "/mnt/disk11" = true ∧
    checkSerialDiskMount bootSys 8 ["/mnt/disk1"]
      = some (["/mnt/disk1"],
          [.ExecEnabledSMART "/dev/sda", .MountDisk "/dev/sda1" "/mnt/disk1",
            .RemoveLSBLKCache,
            .OnlyExec
              "source /usr/share/casaos/shell/local-storage-helper.sh ;AutoRemoveUnuseDir"]) := by
  refine ⟨by decide, by decide, by decide⟩

theorem mountChildren_calls {σ : Type} (sys : DiskSys σ) (fuel : Nat)
    (mountPoint : GoMap String) (v : LSBLKModel) (children : List LSBLKChild) :
    ∀ s : σ, ∃ s2 calls,
      mountChildren sys (fuel + 1) mountPoint v s children = some (s2, calls) ∧
      ∀ c ∈ calls, ∃ h ∈ children, ∃ m,
        mountPoint.get? h.UUID = some m ∧ c = .MountDisk h.Path m := by
  induction children with
  | nil =>
    intro s
    exact ⟨s, [], rfl, by simp⟩
  | cons h rest ih =>
    intro s
    unfold mountChildren
    cases hm : mountPoint.get? h.UUID with
    | none =>
      obtain ⟨s2, calls, h1, h2⟩ := ih s
      refine ⟨s2, calls, by simpa using h1, ?_⟩
      intro c hc
      obtain ⟨h0, hmem, m, hg, rfl⟩ := h2 c hc
      exact ⟨h0, by simp [hmem], m, hg, rfl⟩
    | some m =>
      obtain ⟨s2, calls, h1, h2⟩ := ih (sys.MountDisk s h.Path m)
      refine ⟨s2, .MountDisk h.Path m :: calls, ?_, ?_⟩
      · simp [chooseVolume_eq, h1]
      · intro c hc
        rcases List.mem_cons.1 hc with rfl | hc
        · exact ⟨h, by simp, m, hm, rfl⟩
        · obtain ⟨h0, hmem, m0, hg, rfl⟩ := h2 c hc
          exact ⟨h0, by simp [hmem], m0, hg, rfl⟩

theorem remountLoop_calls {σ : Type} (sys : DiskSys σ) (fuel : Nat)
    (mountPoint : GoMap String) (list : List LSBLKModel) :
    ∀ s : σ, ∃ s2 calls,
      remountLoop sys (fuel + 1) mountPoint s list = some (s2, calls) ∧
      ∀ c ∈ calls, (∃ path, c = .ExecEnabledSMART path) ∨
        ∃ path uuid m, mountPoint.get? uuid = some m ∧ c = .MountDisk path m := by
  induction list with
  | nil =>
    intro s
    exact ⟨s, [], rfl, by simp⟩
  | cons v rest ih =>
    intro s
    obtain ⟨s1, calls1, h1, h2⟩ :=
      mountChildren_calls sys fuel mountPoint v v.Children (sys.ExecEnabledSMART s v.Path)
    obtain ⟨s2, calls2, h3, h4⟩ := ih s1
    refine ⟨s2, .ExecEnabledSMART v.Path :: calls1 ++ calls2, by simp [remountLoop, h1, h3], ?_⟩
    intro c hc
    simp only [List.cons_append, List.mem_cons, List.mem_append] at hc
    rcases hc with rfl | hc | hc
    · exact Or.inl ⟨_, rfl⟩
    · obtain ⟨h0, _, m, hg, rfl⟩ := h2 c hc
      exact Or.inr ⟨_, _, m, hg, rfl⟩
    · exact h4 c hc

/-- For every machine, every set of persisted volumes and live devices, the remount
returns as soon as each suffix loop may test its condition once; each `MountDisk`
it issues is at a recorded mount point, occupied or not, and it never calls
`UpdateMountPoint`. -/
theorem checkSerialDiskMount_never_suffixes {σ : Type} (sys : DiskSys σ) (fuel : Nat) (s : σ) :
    ∃ s2 calls, checkSerialDiskMount sys (fuel + 1) s = some (s2, calls) ∧
      (∀ ms, DiskCall.UpdateMountPoint ms ∉ calls) ∧
      ∀ path volume, DiskCall.MountDisk path volume ∈ calls →
        ∃ uuid, (recordedMountPoints (sys.GetSerialAll s)).get? uuid = some volume := by
  obtain ⟨s1, calls, h1, h2⟩ :=
    remountLoop_calls sys fuel (recordedMountPoints (sys.GetSerialAll s)) (sys.LSBLK s true) s
  have hrun : checkSerialDiskMount sys (fuel + 1) s
      = some (sys.OnlyExec (sys.RemoveLSBLKCache s1)
          ("source " ++ sys.ShellPath ++ "/local-storage-helper.sh ;AutoRemoveUnuseDir"),
        calls ++ [.RemoveLSBLKCache,
          .OnlyExec
            ("source " ++ sys.ShellPath ++ "/local-storage-helper.sh ;AutoRemoveUnuseDir")]) := by
    simp only [checkSerialDiskMount, h1]
  refine ⟨_, _, hrun, ?_, ?_⟩
  · intro ms hmem
    simp only [List.mem_append, List.mem_cons, List.mem_singleton, List.mem_nil_iff,
      or_false] at hmem
    rcases hmem with hmem | hmem | hmem
    · rcases h2 _ hmem with ⟨_, hc⟩ | ⟨_, _, _, _, hc⟩ <;> cases hc
    · cases hmem
    · cases hmem
  · intro path volume hmem
    simp only [List.mem_append, List.mem_cons, List.mem_singleton, List.mem_nil_iff,
      or_false] at hmem
    rcases hmem with hmem | hmem | hmem
    · rcases h2 _ hmem with ⟨_, hc⟩ | ⟨_, uuid, m, hg, hc⟩
      · cases hc
      · cases hc
        exact ⟨uuid, hg⟩
    · cases hmem
    · cases hmem

/-! ### The source string of `CreateMerge` and the source list of `UpdateMerge` -/

theorem foldl_source_eq_spec (mounts : List Model2.Mount) (acc : String) :
    mounts.foldl (fun source mount => source ++ ":" ++ mount.MountPoint) acc
      = acc ++ colonSuffix (mounts.map (fun mount => mount.MountPoint)) := by
  induction mounts generalizing acc with
  | nil => simp [colonSuffix]
  | cons hd tl ih =>
    simp only [List.foldl_cons, List.map_cons, colonSuffix, ih]
    simp only [String.append_assoc]

theorem foldl_source_eq_go (mounts : List Model2.Mount) (acc : String) :
    mounts.foldl (fun source mount => source ++ ":" ++ mount.MountPoint) acc
      = String.intercalate.go acc ":" (mounts.map (fun mount => mount.MountPoint)) := by
  induction mounts generalizing acc with
  | nil => simp [String.intercalate.go]
  | cons hd tl ih => simp only [List.foldl_cons, List.map_cons, String.intercalate.go, ih]

/-- The string `CreateMerge` builds is the `":"`-join of the list `UpdateMerge`
builds. -/
theorem createMergeSource_eq_intercalate (base : String) (mounts : List Model2.Mount) :
    createMergeSource base mounts = ":".intercalate (appendMountPoints base mounts) := by
  have h : appendMountPoints base mounts = base :: mounts.map (fun mount => mount.MountPoint) := by
    simp [appendMountPoints, foldl_append_mountPoints]
  rw [h]
  simp only [createMergeSource, String.intercalate, foldl_source_eq_go]

/-- Each `Mount` that `CreateMerge` issues carries the string built from the base
path and the source mounts of the merge it was given. -/
theorem CreateMerge_mount_source {ω : Type} (sys : Sys ω) (st : State ω)
    (merge : Model2.Merge) (req : Codegen.Mount)
    (hmem : Call.Mount req ∈ (CreateMerge sys st merge).calls) :
    ∃ base, merge.SourceBasePath = some base ∧
      req = { MountPoint := merge.MountPoint, Fstype := some merge.FSType,
              Source := some (createMergeSource base merge.SourceMounts), Options := none } := by
  unfold CreateMerge at hmem
  cases hq : sys.dbErr st.os (.DbWhereMountPoint merge.MountPoint) with
  | some e => simp [hq] at hmem
  | none =>
    by_cases hpos : (dbWhereMountPoint st.merges merge.MountPoint).length > 0
    · simp [hq, hpos] at hmem
    · cases hb : merge.SourceBasePath with
      | none => simp [hq, hpos, hb] at hmem
      | some base =>
        refine ⟨base, rfl, ?_⟩
        cases hmk : sys.IsNotExistMkDir st.os base with
        | mk e1 os1 =>
          cases e1 with
          | some e => simp [hq, hpos, hb, hmk] at hmem
          | none =>
            cases hm : sys.Mount os1
                { MountPoint := merge.MountPoint, Fstype := some merge.FSType,
                  Source := some (createMergeSource base merge.SourceMounts),
                  Options := none } with
            | mk e2 os2 =>
              cases e2 with
              | some e =>
                simp [hq, hpos, hb, hmk, hm] at hmem
                exact hmem
              | none =>
                cases hc : sys.dbErr os2 (.DbCreate merge) with
                | some e =>
                  simp [hq, hpos, hb, hmk, hm, hc] at hmem
                  exact hmem
                | none =>
                  simp [hq, hpos, hb, hmk, hm, hc] at hmem
                  exact hmem

/-- Each `Mount` or `SetSource` that `UpdateMerge` issues carries the list built
from the base path of the stored record and the mounts it was given: joined with
`":"` for `Mount`, as it is for `SetSource`. -/
theorem UpdateMerge_repair_sources {ω : Type} (sys : Sys ω) (st : State ω)
    (mountPoint : String) (mounts : List Model2.Mount) (c : Call)
    (hmem : c ∈ (UpdateMerge sys st mountPoint mounts).calls) (hrep : c.isRepair = true) :
    ∃ record base, dbFirst st.merges mountPoint = some record ∧
      record.SourceBasePath = some base ∧
      (c = .Mount { MountPoint := record.MountPoint, Fstype := some record.FSType,
                    Source := some (":".intercalate (appendMountPoints base mounts)),
                    Options := none } ∨
        c = .SetSource mountPoint (appendMountPoints base mounts)) := by
  unfold UpdateMerge at hmem
  cases hq : sys.dbErr st.os (.DbFirst mountPoint) with
  | some e =>
    simp only [hq, List.mem_singleton] at hmem
    subst hmem
    simp [Call.isRepair] at hrep
  | none =>
    cases hf : dbFirst st.merges mountPoint with
    | none =>
      simp only [hq, hf, List.mem_singleton] at hmem
      subst hmem
      simp [Call.isRepair] at hrep
    | some record =>
      cases hs : sys.Stat st.os mountPoint with
      | some e =>
        simp only [hq, hf, hs, List.mem_cons, List.mem_singleton, List.mem_nil_iff,
          or_false] at hmem
        rcases hmem with rfl | rfl <;> simp [Call.isRepair] at hrep
      | none =>
        cases hb : record.SourceBasePath with
        | none =>
          simp only [hq, hf, hs, hb, List.mem_cons, List.mem_singleton, List.mem_nil_iff,
            or_false] at hmem
          rcases hmem with rfl | rfl <;> simp [Call.isRepair] at hrep
        | some base =>
          refine ⟨record, base, rfl, hb, ?_⟩
          cases hl : sys.ListValues st.os mountPoint with
          | some err =>
            cases hm : sys.Mount st.os
                { MountPoint := record.MountPoint, Fstype := some record.FSType,
                  Source := some (":".intercalate (appendMountPoints base mounts)),
                  Options := none } with
            | mk e os1 =>
              cases e with
              | some e =>
                simp only [hq, hf, hs, hb, hl, hm, List.mem_cons, List.mem_singleton,
                  List.mem_nil_iff, or_false] at hmem
                rcases hmem with rfl | rfl | rfl | rfl
                · simp [Call.isRepair] at hrep
                · simp [Call.isRepair] at hrep
                · simp [Call.isRepair] at hrep
                · exact Or.inl rfl
              | none =>
                simp only [hq, hf, hs, hb, hl, hm, List.mem_append, List.mem_cons,
                  List.mem_singleton, List.mem_nil_iff, or_false] at hmem
                rcases hmem with (rfl | rfl | rfl | rfl) | h
                · simp [Call.isRepair] at hrep
                · simp [Call.isRepair] at hrep
                · simp [Call.isRepair] at hrep
                · exact Or.inl rfl
                · have := persistSourceMounts_calls_not_repair _ _ _ _ c h
                  rw [this] at hrep
                  cases hrep
          | none =>
            cases hm : sys.SetSource st.os mountPoint (appendMountPoints base mounts) with
            | mk e os1 =>
              cases e with
              | some e =>
                simp only [hq, hf, hs, hb, hl, hm, List.mem_cons, List.mem_singleton,
                  List.mem_nil_iff, or_false] at hmem
                rcases hmem with rfl | rfl | rfl | rfl
                · simp [Call.isRepair] at hrep
                · simp [Call.isRepair] at hrep
                · simp [Call.isRepair] at hrep
                · exact Or.inr rfl
              | none =>
                simp only [hq, hf, hs, hb, hl, hm, List.mem_append, List.mem_cons,
                  List.mem_singleton, List.mem_nil_iff, or_false] at hmem
                rcases hmem with (rfl | rfl | rfl | rfl) | h
                · simp [Call.isRepair] at hrep
                · simp [Call.isRepair] at hrep
                · simp [Call.isRepair] at hrep
                · exact Or.inr rfl
                · have := persistSourceMounts_calls_not_repair _ _ _ _ c h
                  rw [this] at hrep
                  cases hrep

/-- C11: for a source base path `base` and sources `mounts`, the string that the
loop of `CreateMerge` builds is `base` followed by `":"` and each mount point in
stored order; it equals the `":"`-join of the list `[base, p1, ..., pn]` that the
loop of `UpdateMerge` builds, and it is `base` itself when there are no sources.
Every `Mount` that `CreateMerge` issues carries that string for the merge it was
given; every `Mount` that `UpdateMerge` issues carries the join of its list, and
every `SetSource` the list itself, for the base path of the stored record. -/
theorem createMergeSource_refines_join {ω : Type} (sys : Sys ω) (st : State ω)
    (merge : Model2.Merge) (mountPoint : String) (base : String)
    (mounts : List Model2.Mount) :
    createMergeSource base mounts
      = sourceStringSpec base (mounts.map (fun mount => mount.MountPoint)) ∧
    appendMountPoints base mounts = base :: mounts.map (fun mount => mount.MountPoint) ∧
    createMergeSource base mounts = ":".intercalate (appendMountPoints base mounts) ∧
    createMergeSource base [] = base ∧
    (∀ req, Call.Mount req ∈ (CreateMerge sys st merge).calls →
      ∃ b, merge.SourceBasePath = some b ∧
        req.Source
          = some (sourceStringSpec b (merge.SourceMounts.map (fun mount => mount.MountPoint))) ∧
        req.Source = some (":".intercalate (appendMountPoints b merge.SourceMounts))) ∧
    (∀ req, Call.Mount req ∈ (UpdateMerge sys st mountPoint mounts).calls →
      ∃ record b, dbFirst st.merges mountPoint = some record ∧
        record.SourceBasePath = some b ∧
        req.Source
          = some (":".intercalate (b :: mounts.map (fun mount => mount.MountPoint))) ∧
        req.Source = some (createMergeSource b mounts)) ∧
    (∀ target sources,
      Call.SetSource target sources ∈ (UpdateMerge sys st mountPoint mounts).calls →
      ∃ record b, dbFirst st.merges mountPoint = some record ∧
        record.SourceBasePath = some b ∧
        sources = b :: mounts.map (fun mount => mount.MountPoint)) := by
  have hlist : ∀ (b : String) (l : List Model2.Mount),
      appendMountPoints b l = b :: l.map (fun mount => mount.MountPoint) := by
    intro b l
    simp [appendMountPoints, foldl_append_mountPoints]
  refine ⟨foldl_source_eq_spec mounts base, hlist base mounts,
    createMergeSource_eq_intercalate base mounts, rfl, ?_, ?_, ?_⟩
  · intro req hmem
    obtain ⟨b, hb, rfl⟩ := CreateMerge_mount_source sys st merge req hmem
    refine ⟨b, hb, ?_, ?_⟩
    · show some (createMergeSource b merge.SourceMounts) = _
      rw [createMergeSource, foldl_source_eq_spec, sourceStringSpec]
    · show some (createMergeSource b merge.SourceMounts) = _
      rw [createMergeSource_eq_intercalate]
  · intro req hmem
    obtain ⟨record, b, hf, hb, hc⟩ :=
      UpdateMerge_repair_sources sys st mountPoint mounts _ hmem rfl
    refine ⟨record, b, hf, hb, ?_⟩
    rcases hc with hc | hc
    · injection hc with hc
      subst hc
      exact ⟨by rw [hlist], by rw [createMergeSource_eq_intercalate]⟩
    · cases hc
  · intro target sources hmem
    obtain ⟨record, b, hf, hb, hc⟩ :=
      UpdateMerge_repair_sources sys st mountPoint mounts _ hmem rfl
    refine ⟨record, b, hf, hb, ?_⟩
    rcases hc with hc | hc
    · cases hc
    · injection hc with _ hc
      rw [hc, hlist]

theorem createMergeSource_refines_join_witness :
    createMergeSource "/data/merge1" [volume1, volume2] = "/data/merge1:/mnt/v1:/mnt/v2" ∧
    createMergeSource "/data/merge1" [] = "/data/merge1" ∧
    Call.Mount liveMount1 ∈ (CreateMerge machineSys ⟨[], bareMachine false⟩ merge1).calls ∧
    Call.Mount liveMount1
      ∈ (UpdateMerge machineSys ⟨[merge1], bareMachine false⟩ "/mnt/merge1"
          [volume1, volume2]).calls ∧
    liveMount1.Source
      = some (":".intercalate (appendMountPoints "/data/merge1" [volume1, volume2])) := by
  have h := createMergeSource_refines_join machineSys ⟨[], bareMachine false⟩ merge1
    "/mnt/merge1" "/data/merge1" [volume1, volume2]
  have hc : Call.Mount liveMount1
      ∈ (CreateMerge machineSys ⟨[], bareMachine false⟩ merge1).calls := by decide
  obtain ⟨b, hb, _, hjoin⟩ := h.2.2.2.2.1 liveMount1 hc
  have hb2 : b = "/data/merge1" := by
    have : some "/data/merge1" = some b := hb
    injection this with this
    exact this.symm
  subst hb2
  exact ⟨by decide, h.2.2.2.1, hc, by decide, hjoin⟩

end LocalStorage
